import Mathlib

/-!
Verification of the settlement-reconciliation engine
(`internal/reconciler/reconciler.go`, `internal/models/models.go`).

Shallow embedding conventions:
* Go `float64` amounts are modelled as exact rationals `ℚ`; the numeric
  comparisons of the source (`math.Abs`, `<`, `<=`) become the corresponding
  exact operations on `ℚ`.
* Go `time.Time` values are modelled as rational numbers of hours since an
  arbitrary epoch, so that `settledAt.Sub(authorizedAt).Hours()` is plain
  subtraction and `int(h / 24)` is truncation toward zero.
* Go maps used as lookup tables are modelled as association lists; maps
  built by repeated insertion (last write wins) are built by consing the new
  binding in front, so that a front-to-back lookup sees the latest write.
* Go map iteration order is unspecified; where the source iterates over a
  map (phase 1 iterates over the settlement groups), the embedding fixes the
  order of first appearance of each key in the settlement snapshot.
* The `nextID` closure of `Run` (a counter incremented at each emitted
  result) is embedded as a sequential post-pass `assignIDs` that gives the
  i-th emitted result (in emission order) the identifier `RR-<runID>-%04d`
  of `i+1`, exactly the strings the Go counter produces.
* The final `sort.Slice` call only guarantees the ordering given by its
  comparator; for slices of at most 12 elements Go's implementation is the
  (stable) insertion sort.  The embedding fixes the stable insertion sort of
  the comparator `|variance i| > |variance j|`.
-/

namespace Reconciler

/-- Go `models.ReconciliationStatus` (five string constants in the source). -/
inductive ReconciliationStatus where
  | matched
  | matchedWithVariance
  | unsettled
  | unexpectedSettlement
  | duplicate
deriving DecidableEq, Repr

/-- Go `models.Transaction`.  Timestamps are rational hours since an epoch. -/
structure Transaction where
  id : String
  orderID : String
  processorName : String
  processorTxnID : String
  amount : ℚ
  currency : String
  country : String
  status : String
  authorizedAt : ℚ
  capturedAt : Option ℚ
  customerEmail : String
  paymentMethod : String
deriving DecidableEq, Repr

/-- Go `models.SettlementRecord`. -/
structure SettlementRecord where
  id : String
  processorName : String
  processorTxnID : String
  orderReference : String
  grossAmount : ℚ
  feeAmount : ℚ
  netAmount : ℚ
  currency : String
  settledAt : ℚ
  settlementBatchID : String
deriving DecidableEq, Repr

/-- Go `models.ReconciliationResult`.  Go zero values of unset fields are kept:
`""` for strings, `0` for numbers, `none` for the pointer fields. -/
structure ReconciliationResult where
  id : String
  transactionID : String
  settlementID : String
  processorName : String
  status : ReconciliationStatus
  expectedAmount : ℚ
  settledGrossAmount : ℚ
  settledNetAmount : ℚ
  feeAmount : ℚ
  varianceAmount : ℚ
  currency : String
  country : String
  authorizedAt : Option ℚ
  settledAt : Option ℚ
  daysToSettle : Option ℤ
  notes : String
deriving DecidableEq, Repr

/-- Go `models.ReportSummary`. -/
structure ReportSummary where
  totalTransactions : ℕ
  totalSettlements : ℕ
  matched : ℕ
  matchedWithVariance : ℕ
  unsettled : ℕ
  unexpectedSettlements : ℕ
  duplicates : ℕ
  totalExpectedAmount : ℚ
  totalSettledGross : ℚ
  totalSettledNet : ℚ
  totalVarianceAmount : ℚ
  totalFees : ℚ
  reconciliationRate : ℚ
deriving DecidableEq, Repr

/-- The all-zero `ReportSummary` (Go zero value, used when a breakdown key is
read for the first time and for the initial overall summary). -/
def zeroSummary : ReportSummary :=
  { totalTransactions := 0, totalSettlements := 0, matched := 0
    matchedWithVariance := 0, unsettled := 0, unexpectedSettlements := 0
    duplicates := 0, totalExpectedAmount := 0, totalSettledGross := 0
    totalSettledNet := 0, totalVarianceAmount := 0, totalFees := 0
    reconciliationRate := 0 }

/-- Go `models.ReconciliationReport`.  The three breakdown maps are association
lists keyed by currency / country / processor. -/
structure ReconciliationReport where
  runID : String
  summary : ReportSummary
  byCurrency : List (String × ReportSummary)
  byCountry : List (String × ReportSummary)
  byProcessor : List (String × ReportSummary)
  results : List ReconciliationResult
  highPriority : List ReconciliationResult
deriving DecidableEq, Repr

/-- Go `models.ReconciliationConfig`.  `fxRates` is the `from → to → rate`
table as an association list of association lists. -/
structure ReconciliationConfig where
  varianceTolerancePct : ℚ
  lateSettlementDays : ℤ
  highPriorityThreshold : ℚ
  fxRates : List (String × List (String × ℚ))
deriving DecidableEq, Repr

/-- Go `models.DefaultConfig`. -/
def DefaultConfig : ReconciliationConfig :=
  { varianceTolerancePct := 0
    lateSettlementDays := 7
    highPriorityThreshold := 1000
    fxRates := [("MXN", [("USD", 58/1000)]),
                ("COP", [("USD", 24/100000)]),
                ("BRL", [("USD", 20/100)]),
                ("USD", [("USD", 1)])] }

/-- Association-list lookup (Go map read `m[k]`). -/
def slookup {α : Type} : List (String × α) → String → Option α
  | [], _ => none
  | (k, v) :: rest, key => if k = key then some v else slookup rest key

/-- Association-list write (Go map assignment `m[k] = v`). -/
def mapSet {α : Type} : List (String × α) → String → α → List (String × α)
  | [], k, v => [(k, v)]
  | (k0, v0) :: rest, k, v =>
      if k0 = k then (k, v) :: rest else (k0, v0) :: mapSet rest k v

/-- Go `processorKey` in the source: the composite key `name:txnID`. -/
def processorKey (processorName processorTxnID : String) : String :=
  processorName ++ ":" ++ processorTxnID

/-- The processor key of a settlement record. -/
def pKeyOfS (s : SettlementRecord) : String :=
  processorKey s.processorName s.processorTxnID

/-- The processor key of a transaction. -/
def pKeyOfT (t : Transaction) : String :=
  processorKey t.processorName t.processorTxnID

/-- Index construction of `Run` (lines 32-38): the binding of a later
transaction is consed in front, so `slookup` sees the last write, exactly the
overwrite semantics of the Go map writes. -/
def buildIndex (f : Transaction → String) (ts : List Transaction) :
    List (String × Transaction) :=
  ts.foldl (fun m t => (f t, t) :: m) []

/-- Go `findTransaction` in the source: primary lookup by processor key, then
fallback by order reference against the order-id index. -/
def findTransaction (pk orderRef : String)
    (byPK byOrder : List (String × Transaction)) : Option Transaction :=
  match slookup byPK pk with
  | some t => some t
  | none => if orderRef ≠ "" then slookup byOrder orderRef else none

/-- Go `convertAmount`, second half: the bridge via USD (lines 309-318 of the
source; note the source looks `FXRates[from]` up again inside this block). -/
def convertViaUSD (cfg : ReconciliationConfig) (amount : ℚ)
    (fromC toC : String) : ℚ :=
  match slookup cfg.fxRates fromC, slookup cfg.fxRates toC with
  | some fromUSD, some toUSD =>
    match slookup fromUSD "USD", slookup toUSD "USD" with
    | some rateFromToUSD, some rateToToUSD => amount * rateFromToUSD / rateToToUSD
    | _, _ => amount
  | _, _ => amount

/-- Go `convertAmount` (lines 300-320): identity on equal currencies, then the
direct rate, then the USD bridge, then the fail-open identity. -/
def convertAmount (cfg : ReconciliationConfig) (amount : ℚ)
    (fromC toC : String) : ℚ :=
  if fromC = toC then amount
  else
    match slookup cfg.fxRates fromC with
    | some rates =>
      match slookup rates toC with
      | some rate => amount * rate
      | none => convertViaUSD cfg amount fromC toC
    | none => convertViaUSD cfg amount fromC toC

/-- The two-level rate-table read `rateTable[from][to]` (the spec's notation
for the pair of map lookups the source performs). -/
def lookupRate (cfg : ReconciliationConfig) (fromC toC : String) : Option ℚ :=
  (slookup cfg.fxRates fromC).bind fun rates => slookup rates toC

/-- Go `math.Abs`. -/
def qabs (q : ℚ) : ℚ := if q < 0 then -q else q

/-- Truncation toward zero, Go's `int(f)` conversion: on the normalized
fraction `num/den` this is the T-division of the numerator by the
denominator. -/
def truncQ (q : ℚ) : ℤ := q.num / (q.den : ℤ)

/-- Go `int(settledAt.Sub(authorizedAt).Hours() / 24)` with timestamps in
rational hours. -/
def daysBetween (authorizedAt settledAt : ℚ) : ℤ :=
  truncQ ((settledAt - authorizedAt) / 24)

/-- Round half up to the nearest integer (`⌊q + 1/2⌋` as floor division of
integers), used only for decimal note rendering. -/
def qround (q : ℚ) : ℤ := Int.fdiv (2 * q.num + q.den) (2 * q.den)

/-- Two-digit zero padding of a remainder in `[0, 100)`. -/
def padFrac (r : ℤ) : String :=
  if r < 10 then "0" ++ toString r else toString r

/-- Exact two-decimal rendering of a rational, standing in for Go's `%.2f`
(whose binary-float rounding the exact model renders as round-half-up). -/
def fmt2 (q : ℚ) : String :=
  let m : ℤ := qround (qabs q * 100)
  (if q < 0 then "-" else "") ++ toString (m / 100) ++ "." ++ padFrac (m % 100)

/-- One-decimal rendering of a rational, standing in for Go's `%.1f`. -/
def fmt1 (q : ℚ) : String :=
  let m : ℤ := qround (qabs q * 10)
  (if q < 0 then "-" else "") ++ toString (m / 10) ++ "." ++ toString (m % 10)

/-- The note of a `duplicate` outcome (line 74 of the source). -/
def dupNote (key : String) (cnt : ℕ) : String :=
  "Duplicate settlement for processor key " ++ key ++ " (" ++ toString cnt
    ++ " occurrences)"

/-- The tolerance note (line 141). -/
def tolNote (variance : ℚ) (currency : String) (tolerancePct : ℚ) : String :=
  "Variance of " ++ fmt2 variance ++ " " ++ currency ++ " within tolerance ("
    ++ fmt1 (tolerancePct * 100) ++ "%)"

/-- The cross-currency variance note (lines 145-146). -/
def crossNote (t : Transaction) (s : SettlementRecord) (expected : ℚ) : String :=
  "Cross-currency: authorized " ++ fmt2 t.amount ++ " " ++ t.currency
    ++ ", settled " ++ fmt2 s.grossAmount ++ " " ++ s.currency
    ++ " (expected ~" ++ fmt2 expected ++ " " ++ s.currency ++ " after FX)"

/-- The fee-explained variance note (line 148). -/
def feeNote (variance : ℚ) (currency : String) (fee : ℚ) : String :=
  "Variance of " ++ fmt2 variance ++ " " ++ currency
    ++ " matches fee deduction of " ++ fmt2 fee

/-- The generic amount-variance note (lines 151-152). -/
def amountNote (expected gross variance : ℚ) (currency : String) : String :=
  "Amount variance: expected " ++ fmt2 expected ++ ", settled gross "
    ++ fmt2 gross ++ " (diff: " ++ fmt2 variance ++ " " ++ currency ++ ")"

/-- The late-settlement note (line 165). -/
def lateNote (days threshold : ℤ) : String :=
  "Late settlement: " ++ toString days ++ " days (threshold: "
    ++ toString threshold ++ ")"

/-- The `duplicate` outcome emitted for each settlement of a duplicate group
(lines 64-90).  `txnOpt` is the best-effort enrichment transaction; when it
is found the expected amount and the variance use the raw transaction amount,
with no FX conversion. -/
def dupResult (key : String) (cnt : ℕ) (txnOpt : Option Transaction)
    (s : SettlementRecord) : ReconciliationResult :=
  match txnOpt with
  | some t =>
    { id := "", transactionID := t.id, settlementID := s.id
      processorName := s.processorName, status := .duplicate
      expectedAmount := t.amount, settledGrossAmount := s.grossAmount
      settledNetAmount := s.netAmount, feeAmount := s.feeAmount
      varianceAmount := s.grossAmount - t.amount, currency := s.currency
      country := t.country, authorizedAt := some t.authorizedAt
      settledAt := some s.settledAt
      daysToSettle := some (daysBetween t.authorizedAt s.settledAt)
      notes := dupNote key cnt }
  | none =>
    { id := "", transactionID := "", settlementID := s.id
      processorName := s.processorName, status := .duplicate
      expectedAmount := 0, settledGrossAmount := s.grossAmount
      settledNetAmount := s.netAmount, feeAmount := s.feeAmount
      varianceAmount := 0, currency := s.currency
      country := "", authorizedAt := none, settledAt := some s.settledAt
      daysToSettle := none, notes := dupNote key cnt }

/-- The `unexpected_settlement` outcome (lines 106-124): the variance is the
full settled gross amount. -/
def unexpectedResult (s : SettlementRecord) : ReconciliationResult :=
  { id := "", transactionID := "", settlementID := s.id
    processorName := s.processorName, status := .unexpectedSettlement
    expectedAmount := 0, settledGrossAmount := s.grossAmount
    settledNetAmount := s.netAmount, feeAmount := s.feeAmount
    varianceAmount := s.grossAmount, currency := s.currency
    country := "", authorizedAt := none, settledAt := some s.settledAt
    daysToSettle := none
    notes := "Settlement record has no matching internal transaction" }

/-- The FX-converted expected amount of a matched pair (line 130). -/
def expectedOf (cfg : ReconciliationConfig) (t : Transaction)
    (s : SettlementRecord) : ℚ :=
  convertAmount cfg t.amount t.currency s.currency

/-- The variance of a matched pair (line 131). -/
def varianceOf (cfg : ReconciliationConfig) (t : Transaction)
    (s : SettlementRecord) : ℚ :=
  s.grossAmount - expectedOf cfg t s

/-- The phase-2 status/note classification for a matched pair (lines
133-155): the `0.01` rounding floor, the tolerance band, and the
cross-currency / fee-override / generic variance branches. -/
def classifyPair (cfg : ReconciliationConfig) (t : Transaction)
    (s : SettlementRecord) : ReconciliationStatus × String :=
  let expectedAmount := convertAmount cfg t.amount t.currency s.currency
  let variance := s.grossAmount - expectedAmount
  if qabs variance > 1/100 then
    let toleranceAmt := expectedAmount * cfg.varianceTolerancePct
    if qabs variance ≤ toleranceAmt then
      (.matched, tolNote variance s.currency cfg.varianceTolerancePct)
    else if t.currency ≠ s.currency then
      (.matchedWithVariance, crossNote t s expectedAmount)
    else if s.feeAmount > 0 ∧ qabs (variance + s.feeAmount) < 1/100 then
      (.matched, feeNote variance s.currency s.feeAmount)
    else
      (.matchedWithVariance, amountNote expectedAmount s.grossAmount variance s.currency)
  else (.matched, "")

/-- The phase-2 outcome for a matched pair (lines 126-185): FX-converted
expected amount, the classification above, and the late-settlement note
appended independently of status. -/
def matchedResult (cfg : ReconciliationConfig) (t : Transaction)
    (s : SettlementRecord) : ReconciliationResult :=
  let expectedAmount := convertAmount cfg t.amount t.currency s.currency
  let variance := s.grossAmount - expectedAmount
  let classified := classifyPair cfg t s
  let days := daysBetween t.authorizedAt s.settledAt
  let notes :=
    if days > cfg.lateSettlementDays then
      (if classified.2 ≠ "" then classified.2 ++ "; " else classified.2)
        ++ lateNote days cfg.lateSettlementDays
    else classified.2
  { id := "", transactionID := t.id, settlementID := s.id
    processorName := t.processorName, status := classified.1
    expectedAmount := expectedAmount, settledGrossAmount := s.grossAmount
    settledNetAmount := s.netAmount, feeAmount := s.feeAmount
    varianceAmount := variance, currency := s.currency
    country := t.country, authorizedAt := some t.authorizedAt
    settledAt := some s.settledAt, daysToSettle := some days, notes := notes }

/-- The `unsettled` outcome (lines 189-205): no settlement fields, variance
left at the zero value `0`, no days-to-settle. -/
def unsettledResult (t : Transaction) : ReconciliationResult :=
  { id := "", transactionID := t.id, settlementID := ""
    processorName := t.processorName, status := .unsettled
    expectedAmount := t.amount, settledGrossAmount := 0
    settledNetAmount := 0, feeAmount := 0, varianceAmount := 0
    currency := t.currency, country := t.country
    authorizedAt := some t.authorizedAt, settledAt := none
    daysToSettle := none
    notes := "No settlement record found for this transaction" }

/-- The settlement group of a processor key (`settlementsByKey[key]`, built
by appends in snapshot order, lines 45-49). -/
def settlementGroup (ss : List SettlementRecord) (k : String) :
    List SettlementRecord :=
  ss.filter (fun s => pKeyOfS s = k)

/-- The distinct processor keys of the settlement snapshot (the key set of
the Go map `settlementsByKey`; its iteration order is unspecified and the
embedding fixes one enumeration of the distinct keys). -/
def settlementKeys (ss : List SettlementRecord) : List String :=
  (ss.map pKeyOfS).dedup

/-- The duplicate keys: keys whose settlement group has more than one member
(lines 59-62). -/
def duplicateKeys (ss : List SettlementRecord) : List String :=
  (settlementKeys ss).filter (fun k => 1 < (settlementGroup ss k).length)

/-- The best-effort enrichment lookup of phase 1 (line 63): primary match on
the processor key, fallback on the first group member's order reference. -/
def dupLookup (byPK byOrder : List (String × Transaction))
    (ss : List SettlementRecord) (k : String) : Option Transaction :=
  match settlementGroup ss k with
  | [] => none
  | s0 :: _ => findTransaction k s0.orderReference byPK byOrder

/-- Phase 1 (lines 58-93): every settlement of every duplicate group is
emitted as a `duplicate` outcome, in group order. -/
def phase1Results (byPK byOrder : List (String × Transaction))
    (ss : List SettlementRecord) : List ReconciliationResult :=
  (duplicateKeys ss).flatMap fun k =>
    (settlementGroup ss k).map
      (dupResult k (settlementGroup ss k).length (dupLookup byPK byOrder ss k))

/-- The transaction ids consumed by phase 1 (`matchedTxnIDs` writes at line
87): the id of the enrichment transaction of each duplicate group that found
one. -/
def phase1TxnIDs (byPK byOrder : List (String × Transaction))
    (ss : List SettlementRecord) : List String :=
  (duplicateKeys ss).filterMap fun k => (dupLookup byPK byOrder ss k).map (·.id)

/-- The settlement ids consumed by phase 1 (`matchedSettlementIDs` writes at
line 89): every member of every duplicate group. -/
def phase1SettIDs (ss : List SettlementRecord) : List String :=
  (duplicateKeys ss).flatMap fun k => (settlementGroup ss k).map (·.id)

/-- The mutable state of phase 2: emitted results so far and the two
consumed-id sets. -/
structure Phase2State where
  results : List ReconciliationResult
  matchedTxnIDs : List String
  matchedSettIDs : List String
deriving Repr

/-- One iteration of the phase-2 loop (lines 96-186): skip settlements
already consumed or on a duplicate key, emit `unexpected_settlement` when no
transaction is found, and the matched outcome otherwise, updating the
consumed-id sets as the source does. -/
def phase2Step (cfg : ReconciliationConfig)
    (byPK byOrder : List (String × Transaction)) (dks : List String)
    (st : Phase2State) (s : SettlementRecord) : Phase2State :=
  if s.id ∈ st.matchedSettIDs then st
  else if pKeyOfS s ∈ dks then st
  else
    match findTransaction (pKeyOfS s) s.orderReference byPK byOrder with
    | none =>
      { results := st.results ++ [unexpectedResult s]
        matchedTxnIDs := st.matchedTxnIDs
        matchedSettIDs := s.id :: st.matchedSettIDs }
    | some t =>
      { results := st.results ++ [matchedResult cfg t s]
        matchedTxnIDs := t.id :: st.matchedTxnIDs
        matchedSettIDs := s.id :: st.matchedSettIDs }

/-- The outcome (if any) that one phase-2 iteration emits for a settlement,
ignoring the consumed-id set: under distinct settlement identifiers the skip
check of line 97 coincides with the duplicate-key check of line 101, and the
phase-2 fold emits exactly these outcomes (`phase2_results_eq`). -/
def phase2Emit (cfg : ReconciliationConfig)
    (byPK byOrder : List (String × Transaction)) (dks : List String)
    (s : SettlementRecord) : Option ReconciliationResult :=
  if pKeyOfS s ∈ dks then none
  else
    match findTransaction (pKeyOfS s) s.orderReference byPK byOrder with
    | none => some (unexpectedResult s)
    | some t => some (matchedResult cfg t s)

/-- Phase 2 (lines 95-186), started from the consumed-id sets left by
phase 1. -/
def phase2 (cfg : ReconciliationConfig)
    (byPK byOrder : List (String × Transaction))
    (ss : List SettlementRecord) : Phase2State :=
  ss.foldl (phase2Step cfg byPK byOrder (duplicateKeys ss))
    { results := []
      matchedTxnIDs := phase1TxnIDs byPK byOrder ss
      matchedSettIDs := phase1SettIDs ss }

/-- Phase 3 (lines 188-205): every transaction whose id was not consumed is
emitted as `unsettled` (the source does not mark ids during this phase). -/
def phase3Results (matchedTxnIDs : List String) (ts : List Transaction) :
    List ReconciliationResult :=
  ts.filterMap fun t =>
    if t.id ∈ matchedTxnIDs then none else some (unsettledResult t)

/-- Little-endian decimal digits via explicit fuel (kernel-reducible; equal
to `Nat.digits 10`, see `digitsLE_eq_digits`). -/
def digitsAux : ℕ → ℕ → List ℕ
  | 0, _ => []
  | fuel + 1, n => if n = 0 then [] else n % 10 :: digitsAux fuel (n / 10)

/-- Little-endian decimal digits of `n`. -/
def digitsLE (n : ℕ) : List ℕ := digitsAux n n

/-- The decimal digits of `n`, most significant first, as characters
(Go's `%d`). -/
def digitsChars (n : ℕ) : List Char :=
  ((digitsLE n).map Nat.digitChar).reverse

/-- The characters of Go's `%04d`: the decimal digits zero-padded to at
least four places. -/
def padChars (n : ℕ) : List Char :=
  List.replicate (4 - (digitsChars n).length) '0' ++ digitsChars n

/-- The result identifier produced by the `nextID` closure (lines 53-56):
`fmt.Sprintf("RR-%s-%04d", runID, resultID)`. -/
def mkID (runID : String) (n : ℕ) : String :=
  "RR-" ++ runID ++ "-" ++ String.mk (padChars n)

/-- The numeric value of a decimal digit character (decoding aid for the
injectivity of `mkID`, not part of the source). -/
def charVal (c : Char) : ℕ := c.toNat - 48

/-- Decode a big-endian decimal character string (decoding aid for the
injectivity of `mkID`, not part of the source). -/
def decodeChars (l : List Char) : ℕ :=
  l.foldl (fun acc c => acc * 10 + charVal c) 0

/-- Sequential identifier assignment: the `resultID` counter of `Run`
rendered as a post-pass, giving the i-th emitted result (zero-based, after
`n` earlier emissions) the identifier of counter value `n + i + 1`. -/
def assignIDs (runID : String) : ℕ → List ReconciliationResult →
    List ReconciliationResult
  | _, [] => []
  | n, r :: rs => { r with id := mkID runID (n + 1) } :: assignIDs runID (n + 1) rs

/-- Go `addToSummary` (lines 279-297). -/
def addToSummary (su : ReportSummary) (res : ReconciliationResult) :
    ReportSummary :=
  let su :=
    match res.status with
    | .matched => { su with matched := su.matched + 1 }
    | .matchedWithVariance =>
        { su with matchedWithVariance := su.matchedWithVariance + 1 }
    | .unsettled => { su with unsettled := su.unsettled + 1 }
    | .unexpectedSettlement =>
        { su with unexpectedSettlements := su.unexpectedSettlements + 1 }
    | .duplicate => { su with duplicates := su.duplicates + 1 }
  { su with
    totalExpectedAmount := su.totalExpectedAmount + res.expectedAmount
    totalSettledGross := su.totalSettledGross + res.settledGrossAmount
    totalSettledNet := su.totalSettledNet + res.settledNetAmount
    totalVarianceAmount := su.totalVarianceAmount + res.varianceAmount
    totalFees := su.totalFees + res.feeAmount }

/-- Read-or-zero followed by `addToSummary` and write-back on one breakdown
map (lines 230-232 and the two analogous blocks). -/
def bumpBreakdown (m : List (String × ReportSummary)) (k : String)
    (res : ReconciliationResult) : List (String × ReportSummary) :=
  mapSet m k (addToSummary ((slookup m k).getD zeroSummary) res)

/-- The high-priority qualification of `buildReport` (lines 246 and 249):
non-`matched` status with absolute variance at or above the threshold, or a
days-to-settle value beyond the late-settlement threshold. -/
def hpQual (cfg : ReconciliationConfig) (o : ReconciliationResult) : Bool :=
  (decide (o.status ≠ .matched)
      && decide (qabs o.varianceAmount ≥ cfg.highPriorityThreshold))
    || (match o.daysToSettle with
        | some d => decide (d > cfg.lateSettlementDays)
        | none => false)

/-- One iteration of the aggregation loop of `buildReport` (lines 226-262):
overall summary, the three breakdowns guarded by nonempty keys, and the
high-priority selection with its linear dedup-by-identifier scan. -/
def reportStep (cfg : ReconciliationConfig) (rep : ReconciliationReport)
    (res : ReconciliationResult) : ReconciliationReport :=
  let hp1 :=
    if res.status ≠ .matched ∧ qabs res.varianceAmount ≥ cfg.highPriorityThreshold
    then rep.highPriority ++ [res]
    else rep.highPriority
  let hp2 :=
    match res.daysToSettle with
    | some d =>
      if d > cfg.lateSettlementDays then
        if hp1.any (fun hp => hp.id = res.id) then hp1 else hp1 ++ [res]
      else hp1
    | none => hp1
  { rep with
    summary := addToSummary rep.summary res
    byCurrency :=
      if res.currency ≠ "" then bumpBreakdown rep.byCurrency res.currency res
      else rep.byCurrency
    byCountry :=
      if res.country ≠ "" then bumpBreakdown rep.byCountry res.country res
      else rep.byCountry
    byProcessor :=
      if res.processorName ≠ "" then bumpBreakdown rep.byProcessor res.processorName res
      else rep.byProcessor
    highPriority := hp2 }

/-- The ordering used to sort the high-priority list (lines 272-274):
non-increasing absolute variance (the non-strict total preorder whose strict
part is the comparator `|a| > |b|` passed to `sort.Slice`). -/
def hpLess (a b : ReconciliationResult) : Prop :=
  qabs b.varianceAmount ≤ qabs a.varianceAmount

instance : DecidableRel hpLess := fun a b =>
  inferInstanceAs (Decidable (qabs b.varianceAmount ≤ qabs a.varianceAmount))

/-- The final sort of the high-priority list.  `sort.Slice` guarantees only
the comparator ordering; Go sorts slices of at most 12 elements with exactly
this stable insertion sort (larger slices go through an unstable
pattern-defeating quicksort, see the notes on claim C5). -/
def sortHP (l : List ReconciliationResult) : List ReconciliationResult :=
  l.insertionSort hpLess

/-- The reconciliation-rate computation of `buildReport` (lines 264-269):
the rate field is written only when the count total is positive, so it keeps
its zero value on an empty denominator. -/
def finalizeRate (su : ReportSummary) : ReportSummary :=
  let total := su.matched + su.matchedWithVariance + su.unsettled
    + su.unexpectedSettlements + su.duplicates
  if 0 < total then
    { su with reconciliationRate :=
        ((su.matched + su.matchedWithVariance : ℚ) / total) * 100 }
  else su

/-- Go `buildReport` (lines 213-277). -/
def buildReport (cfg : ReconciliationConfig) (runID : String)
    (txns : List Transaction) (setts : List SettlementRecord)
    (results : List ReconciliationResult) : ReconciliationReport :=
  let rep : ReconciliationReport :=
    { runID := runID
      summary := { zeroSummary with
        totalTransactions := txns.length, totalSettlements := setts.length }
      byCurrency := [], byCountry := [], byProcessor := []
      results := results, highPriority := [] }
  let rep := results.foldl (reportStep cfg) rep
  { rep with
    summary := finalizeRate rep.summary
    highPriority := sortHP rep.highPriority }

/-- Go `Run` (lines 25-210): index construction, the three phases in order,
sequential identifier assignment, and report synthesis. -/
def Run (cfg : ReconciliationConfig) (runID : String)
    (transactions : List Transaction) (settlements : List SettlementRecord) :
    ReconciliationReport :=
  let byPK := buildIndex pKeyOfT transactions
  let byOrder := buildIndex (·.orderID) transactions
  let p1 := phase1Results byPK byOrder settlements
  let st2 := phase2 cfg byPK byOrder settlements
  let p3 := phase3Results st2.matchedTxnIDs transactions
  let results := assignIDs runID 0 (p1 ++ st2.results ++ p3)
  buildReport cfg runID transactions settlements results

/-- The emitted outcome list of a run (the `results` argument `Run` hands to
`buildReport`), named for the lemmas below. -/
def runResultsList (cfg : ReconciliationConfig) (runID : String)
    (transactions : List Transaction) (settlements : List SettlementRecord) :
    List ReconciliationResult :=
  let byPK := buildIndex pKeyOfT transactions
  let byOrder := buildIndex (·.orderID) transactions
  assignIDs runID 0
    (phase1Results byPK byOrder settlements
      ++ (phase2 cfg byPK byOrder settlements).results
      ++ phase3Results (phase2 cfg byPK byOrder settlements).matchedTxnIDs transactions)

/-!
### Concrete inputs

Fixed record builders and the concrete snapshots used by the
counterexamples and witnesses below.
-/

/-- Concrete transaction builder (test fixture, not part of the source). -/
def sampleTxn (id orderID processorName processorTxnID : String) (amount : ℚ)
    (currency country : String) : Transaction :=
  { id := id, orderID := orderID, processorName := processorName
    processorTxnID := processorTxnID, amount := amount, currency := currency
    country := country, status := "captured", authorizedAt := 0
    capturedAt := none, customerEmail := "", paymentMethod := "" }

/-- Concrete settlement builder (test fixture, not part of the source). -/
def sampleSett (id processorName processorTxnID orderReference : String)
    (grossAmount feeAmount netAmount : ℚ) (currency : String) (settledAt : ℚ) :
    SettlementRecord :=
  { id := id, processorName := processorName, processorTxnID := processorTxnID
    orderReference := orderReference, grossAmount := grossAmount
    feeAmount := feeAmount, netAmount := netAmount, currency := currency
    settledAt := settledAt, settlementBatchID := "" }

/-- C1 snapshot: one transaction with processor key `P:1` and order id `O1`. -/
def doubleTxn : Transaction := sampleTxn "T1" "O1" "P" "1" 100 "USD" "MX"

/-- C1 snapshot: a settlement matching `doubleTxn` by processor key. -/
def doubleSettA : SettlementRecord := sampleSett "S1" "P" "1" "" 100 0 100 "USD" 48

/-- C1 snapshot: a settlement with a different processor key that falls back
to the order reference `O1`, matching `doubleTxn` a second time. -/
def doubleSettB : SettlementRecord := sampleSett "S2" "P" "2" "O1" 100 0 100 "USD" 48

/-- C2 boundary snapshot: same-currency settlement with gross `98.99` and fee
`1.00` against an authorized `100`, so the variance is `-1.01` and
`|variance + fee|` is exactly `0.01`. -/
def feeBoundaryTxn : Transaction := sampleTxn "T1" "O1" "P" "1" 100 "USD" "MX"

/-- C2 boundary snapshot, settlement side. -/
def feeBoundarySett : SettlementRecord :=
  sampleSett "S1" "P" "1" "O1" (9899/100) 1 (9799/100) "USD" 48

/-- C3 snapshot: settlement gross `97` with fee `3` against authorized `100`,
beyond a 2% tolerance but with the variance exactly explained by the fee. -/
def feeBeyondTolSett : SettlementRecord := sampleSett "S1" "P" "1" "O1" 97 3 94 "USD" 48

/-- C3 configuration: 2% variance tolerance. -/
def tolConfig : ReconciliationConfig :=
  { DefaultConfig with varianceTolerancePct := 2/100 }

/-- C3 witness snapshot: settlement gross `98.50` against authorized `100`,
a 1.5% variance inside the 2% tolerance. -/
def tolSett : SettlementRecord :=
  sampleSett "S1" "P" "1" "O1" (985/10) 0 (985/10) "USD" 48

/-- C4 configuration: a direct USD→MXN rate of 17. -/
def fxConfig : ReconciliationConfig :=
  { DefaultConfig with fxRates := [("USD", [("MXN", 17), ("USD", 1)])] }

/-- C4 snapshot: two settlements sharing the processor key `P:1` (a duplicate
group) in MXN against a USD transaction. -/
def dupCrossSettA : SettlementRecord := sampleSett "S1" "P" "1" "O1" 100 0 100 "MXN" 48

/-- C4 snapshot, second duplicate. -/
def dupCrossSettB : SettlementRecord := sampleSett "S2" "P" "1" "O1" 100 0 100 "MXN" 72

/-!
### Lemmas and theorems
-/

set_option maxRecDepth 16000

/-- The function `qabs` is the mathematical absolute value. -/
theorem qabs_eq_abs (q : ℚ) : qabs q = |q| := by
  unfold qabs
  split
  · exact (abs_of_neg (by assumption)).symm
  · exact (abs_of_nonneg (not_lt.mp (by assumption))).symm

/-- Claim C6. `convertAmount` is the identity on equal currencies; otherwise it
multiplies by the direct rate `rateTable[from][to]` when present; otherwise,
when both `rateTable[from]["USD"]` and `rateTable[to]["USD"]` exist, it
returns `amount * rateFromToUSD / rateToToUSD`; otherwise it returns the
amount unconverted (fail-open, no error path exists). -/
theorem c6_convert_spec (cfg : ReconciliationConfig) (amount : ℚ)
    (f t : String) :
    (f = t → convertAmount cfg amount f t = amount) ∧
    (f ≠ t → ∀ r, lookupRate cfg f t = some r →
      convertAmount cfg amount f t = amount * r) ∧
    (f ≠ t → lookupRate cfg f t = none → ∀ rf rt,
      lookupRate cfg f "USD" = some rf → lookupRate cfg t "USD" = some rt →
      convertAmount cfg amount f t = amount * rf / rt) ∧
    (f ≠ t → lookupRate cfg f t = none →
      (lookupRate cfg f "USD" = none ∨ lookupRate cfg t "USD" = none) →
      convertAmount cfg amount f t = amount) := by
  refine ⟨fun hft => by simp [convertAmount, hft], ?_, ?_, ?_⟩
  · intro hne r hr
    obtain ⟨m, hm, hmt⟩ := Option.bind_eq_some.mp hr
    simp [convertAmount, hne, hm, hmt]
  · intro hne hnone rf rt hrf hrt
    obtain ⟨mf, hmf, hmfU⟩ := Option.bind_eq_some.mp hrf
    obtain ⟨mt, hmt, hmtU⟩ := Option.bind_eq_some.mp hrt
    have hdirect : slookup mf t = none := by
      have := hnone
      rw [lookupRate, hmf, Option.some_bind] at this
      exact this
    simp [convertAmount, hne, hmf, hdirect, convertViaUSD, hmt, hmfU, hmtU]
  · intro hne hnone husd
    rcases hf : slookup cfg.fxRates f with _ | mf
    · have hvia : convertViaUSD cfg amount f t = amount := by
        simp [convertViaUSD, hf]
      simp [convertAmount, hne, hf, hvia]
    · have hdirect : slookup mf t = none := by
        have := hnone
        rw [lookupRate, hf, Option.some_bind] at this
        exact this
      have hvia : convertViaUSD cfg amount f t = amount := by
        rcases ht : slookup cfg.fxRates t with _ | mt
        · simp [convertViaUSD, hf, ht]
        · rcases husd with hfu | htu
          · rw [lookupRate, hf, Option.some_bind] at hfu
            simp [convertViaUSD, hf, ht, hfu]
          · rw [lookupRate, ht, Option.some_bind] at htu
            rcases hmfu : slookup mf "USD" with _ | rf
            · simp [convertViaUSD, hf, ht, hmfu]
            · simp [convertViaUSD, hf, ht, hmfu, htu]
      simp [convertAmount, hne, hf, hdirect, hvia]

/-- Witness for C6. The USD bridge at the default rate table: MXN→BRL has no
direct entry, and both USD rates exist, so `100 MXN` converts to
`100 × 0.058 / 0.20 = 29 BRL`. -/
theorem c6_convert_spec_witness :
    convertAmount DefaultConfig 100 "MXN" "BRL" = 100 * (58/1000) / (20/100) :=
  (c6_convert_spec DefaultConfig 100 "MXN" "BRL").2.2.1
    (by decide) (by with_unfolding_all decide) (58/1000) (20/100)
    (by with_unfolding_all decide) (by with_unfolding_all decide)

/-- Claim C4, amended. The variance of a phase-2 matched outcome is the settled
gross amount minus the FX-converted expected amount; the variance of an
enriched duplicate outcome is the settled gross amount minus the *raw*
transaction amount, with no FX conversion; the variance of an unexpected
settlement is the full gross amount. -/
theorem c4_variance_amended (cfg : ReconciliationConfig) (t : Transaction)
    (s : SettlementRecord) (k : String) (cnt : ℕ) :
    (matchedResult cfg t s).varianceAmount
      = s.grossAmount - convertAmount cfg t.amount t.currency s.currency ∧
    (dupResult k cnt (some t) s).varianceAmount = s.grossAmount - t.amount ∧
    (unexpectedResult s).varianceAmount = s.grossAmount :=
  ⟨rfl, rfl, rfl⟩

/-- Unfolded form of `classifyPair` with its local bindings unfolded. -/
theorem classifyPair_def (cfg : ReconciliationConfig) (t : Transaction)
    (s : SettlementRecord) :
    classifyPair cfg t s =
      if qabs (varianceOf cfg t s) > 1/100 then
        if qabs (varianceOf cfg t s) ≤ expectedOf cfg t s * cfg.varianceTolerancePct then
          (.matched, tolNote (varianceOf cfg t s) s.currency cfg.varianceTolerancePct)
        else if t.currency ≠ s.currency then
          (.matchedWithVariance, crossNote t s (expectedOf cfg t s))
        else if s.feeAmount > 0 ∧ qabs (varianceOf cfg t s + s.feeAmount) < 1/100 then
          (.matched, feeNote (varianceOf cfg t s) s.currency s.feeAmount)
        else
          (.matchedWithVariance,
            amountNote (expectedOf cfg t s) s.grossAmount (varianceOf cfg t s) s.currency)
      else (.matched, "") := rfl

/-- The status of a phase-2 matched outcome is the classification's status. -/
theorem matchedResult_status (cfg : ReconciliationConfig) (t : Transaction)
    (s : SettlementRecord) :
    (matchedResult cfg t s).status = (classifyPair cfg t s).1 := rfl

/-- The notes of a phase-2 matched outcome extend the classification's note
(the late-settlement note may be appended, the status never changes). -/
theorem matchedResult_notes_suffix (cfg : ReconciliationConfig)
    (t : Transaction) (s : SettlementRecord) :
    ∃ suf, (matchedResult cfg t s).notes = (classifyPair cfg t s).2 ++ suf := by
  show ∃ suf,
    (if daysBetween t.authorizedAt s.settledAt > cfg.lateSettlementDays then
      (if (classifyPair cfg t s).2 ≠ "" then (classifyPair cfg t s).2 ++ "; "
        else (classifyPair cfg t s).2)
        ++ lateNote (daysBetween t.authorizedAt s.settledAt) cfg.lateSettlementDays
    else (classifyPair cfg t s).2) = (classifyPair cfg t s).2 ++ suf
  split
  · split
    · exact ⟨"; " ++ lateNote (daysBetween t.authorizedAt s.settledAt)
        cfg.lateSettlementDays, String.append_assoc _ _ _⟩
    · exact ⟨lateNote (daysBetween t.authorizedAt s.settledAt)
        cfg.lateSettlementDays, by
          next h => simp [not_ne_iff.mp h]⟩
  · exact ⟨"", (String.append_empty _).symm⟩

/-- Claim C2, amended. In the matched branch of phase 2, when the variance is
beyond the `0.01` floor and beyond the tolerance amount: if the currencies
are equal, the fee is strictly positive, and `|variance + feeAmount|` is
*strictly* below `0.01`, the outcome is reclassified `matched` with a note
citing the fee deduction; otherwise (in particular at
`|variance + feeAmount| = 0.01` exactly, or with a nonpositive fee) it is
`matched_with_variance`. -/
theorem c2_fee_override_amended (cfg : ReconciliationConfig)
    (t : Transaction) (s : SettlementRecord)
    (h1 : 1/100 < |varianceOf cfg t s|)
    (h2 : expectedOf cfg t s * cfg.varianceTolerancePct < |varianceOf cfg t s|) :
    (t.currency = s.currency → 0 < s.feeAmount →
      |varianceOf cfg t s + s.feeAmount| < 1/100 →
      (matchedResult cfg t s).status = .matched ∧
        ∃ suf, (matchedResult cfg t s).notes
          = feeNote (varianceOf cfg t s) s.currency s.feeAmount ++ suf) ∧
    ((t.currency = s.currency →
        ¬(0 < s.feeAmount ∧ |varianceOf cfg t s + s.feeAmount| < 1/100)) →
      (matchedResult cfg t s).status = .matchedWithVariance) := by
  have ha1 : qabs (varianceOf cfg t s) > 1/100 := by rwa [qabs_eq_abs]
  have ha2 : ¬ qabs (varianceOf cfg t s)
      ≤ expectedOf cfg t s * cfg.varianceTolerancePct := by
    rw [qabs_eq_abs]; exact not_le.mpr h2
  constructor
  · intro hcur hfee hfv
    have hclass : classifyPair cfg t s
        = (.matched, feeNote (varianceOf cfg t s) s.currency s.feeAmount) := by
      rw [classifyPair_def, if_pos ha1, if_neg ha2, if_neg (not_ne_iff.mpr hcur),
        if_pos ⟨hfee, by rwa [qabs_eq_abs]⟩]
    obtain ⟨suf, hsuf⟩ := matchedResult_notes_suffix cfg t s
    exact ⟨by rw [matchedResult_status, hclass], suf, by rw [hsuf, hclass]⟩
  · intro hno
    rw [matchedResult_status, classifyPair_def, if_pos ha1, if_neg ha2]
    by_cases hcur : t.currency = s.currency
    · rw [if_neg (not_ne_iff.mpr hcur), if_neg]
      intro ⟨hf, hv⟩
      exact hno hcur ⟨hf, by rwa [qabs_eq_abs] at hv⟩
    · rw [if_pos hcur]

/-- Counterexample to C2. At the boundary `|variance + fee| = 0.01` (gross
98.99, fee 1.00, authorized 100.00, same currency, zero tolerance) the claim
says the outcome is reclassified `matched`; the source's strict `< 0.01`
comparison leaves it `matched_with_variance`. -/
theorem c2_counterexample :
    ¬ ∀ o ∈ (Run DefaultConfig "R" [feeBoundaryTxn] [feeBoundarySett]).results,
      (1/100 < |o.varianceAmount| →
        DefaultConfig.varianceTolerancePct * o.expectedAmount < |o.varianceAmount| →
        o.currency = "USD" → |o.varianceAmount + o.feeAmount| ≤ 1/100 →
        o.status = .matched) := by
  with_unfolding_all decide

/-- Claim C3, amended. In the matched branch of phase 2: a variance within the
`0.01` floor is `matched`; a variance beyond the floor but within
`expectedAmount × toleranceFraction` is `matched` with a tolerance note; a
variance exactly at `expectedAmount × toleranceFraction` is `matched`; a
variance beyond the tolerance is `matched_with_variance` *unless* the
same-currency fee override (`fee > 0` and `|variance + fee| < 0.01`)
applies, in which case it is `matched`. -/
theorem c3_tolerance_amended (cfg : ReconciliationConfig) (t : Transaction)
    (s : SettlementRecord) :
    (|varianceOf cfg t s| ≤ 1/100 → (matchedResult cfg t s).status = .matched) ∧
    (1/100 < |varianceOf cfg t s| →
      |varianceOf cfg t s| ≤ expectedOf cfg t s * cfg.varianceTolerancePct →
      (matchedResult cfg t s).status = .matched ∧
        ∃ suf, (matchedResult cfg t s).notes
          = tolNote (varianceOf cfg t s) s.currency cfg.varianceTolerancePct ++ suf) ∧
    (|varianceOf cfg t s| = expectedOf cfg t s * cfg.varianceTolerancePct →
      (matchedResult cfg t s).status = .matched) ∧
    (1/100 < |varianceOf cfg t s| →
      expectedOf cfg t s * cfg.varianceTolerancePct < |varianceOf cfg t s| →
      ¬(t.currency = s.currency ∧ 0 < s.feeAmount ∧
          |varianceOf cfg t s + s.feeAmount| < 1/100) →
      (matchedResult cfg t s).status = .matchedWithVariance) := by
  refine ⟨?_, ?_, ?_, ?_⟩
  · intro h
    rw [matchedResult_status, classifyPair_def,
      if_neg (by rw [qabs_eq_abs]; exact not_lt.mpr h)]
  · intro h1 h2
    have hclass : classifyPair cfg t s
        = (.matched, tolNote (varianceOf cfg t s) s.currency cfg.varianceTolerancePct) := by
      rw [classifyPair_def, if_pos (by rwa [qabs_eq_abs]),
        if_pos (by rwa [qabs_eq_abs])]
    obtain ⟨suf, hsuf⟩ := matchedResult_notes_suffix cfg t s
    exact ⟨by rw [matchedResult_status, hclass], suf, by rw [hsuf, hclass]⟩
  · intro h
    by_cases h1 : 1/100 < |varianceOf cfg t s|
    · rw [matchedResult_status, classifyPair_def, if_pos (by rwa [qabs_eq_abs]),
        if_pos (by rw [qabs_eq_abs, h])]
    · rw [matchedResult_status, classifyPair_def,
        if_neg (by rwa [qabs_eq_abs, gt_iff_lt])]
  · intro h1 h2 hno
    rw [matchedResult_status, classifyPair_def, if_pos (by rwa [qabs_eq_abs]),
      if_neg (by rw [qabs_eq_abs]; exact not_le.mpr h2)]
    by_cases hcur : t.currency = s.currency
    · rw [if_neg (not_ne_iff.mpr hcur), if_neg]
      intro ⟨hf, hv⟩
      exact hno ⟨hcur, hf, by rwa [qabs_eq_abs] at hv⟩
    · rw [if_pos hcur]

/-- Counterexample to C3. With a 2% tolerance, authorized 100.00 and gross
97.00 (variance -3.00, beyond the tolerance amount 2.00) plus a fee of 3.00
in the same currency, the claim says `matched_with_variance`; the fee
override reclassifies the outcome `matched`. -/
theorem c3_counterexample :
    ¬ ∀ o ∈ (Run tolConfig "R" [feeBoundaryTxn] [feeBeyondTolSett]).results,
      (1/100 < |o.varianceAmount| →
        o.expectedAmount * tolConfig.varianceTolerancePct < |o.varianceAmount| →
        o.status = .matchedWithVariance) := by
  with_unfolding_all decide

/-- The fuel-based digit extractor agrees with `Nat.digits 10`. -/
theorem digitsAux_eq : ∀ (fuel n : ℕ), n ≤ fuel →
    digitsAux fuel n = Nat.digits 10 n := by
  intro fuel
  induction fuel with
  | zero =>
    intro n hn
    interval_cases n
    simp [digitsAux]
  | succ fuel ih =>
    intro n hn
    by_cases h0 : n = 0
    · subst h0; simp [digitsAux]
    · rw [digitsAux, if_neg h0,
        Nat.digits_def' (by norm_num : (1:ℕ) < 10) (Nat.pos_of_ne_zero h0),
        ih (n / 10)]
      have : n / 10 < n := Nat.div_lt_self (Nat.pos_of_ne_zero h0) (by norm_num)
      omega

/-- The fueled `digitsLE` is `Nat.digits 10`. -/
theorem digitsLE_eq_digits (n : ℕ) : digitsLE n = Nat.digits 10 n :=
  digitsAux_eq n n le_rfl

/-- The decoder `charVal` inverts `Nat.digitChar` on decimal digits. -/
theorem charVal_digitChar (d : ℕ) (hd : d < 10) :
    charVal (Nat.digitChar d) = d := by
  interval_cases d <;> rfl

/-- Decoding a reversed digit-character rendering from accumulator `a`. -/
theorem decode_aux (L : List ℕ) (hL : ∀ d ∈ L, d < 10) :
    ∀ a, List.foldl (fun acc c => acc * 10 + charVal c) a
      ((L.map Nat.digitChar).reverse) = a * 10 ^ L.length + Nat.ofDigits 10 L := by
  induction L with
  | nil => intro a; simp [Nat.ofDigits]
  | cons d L ih =>
    intro a
    have hrev : ((d :: L).map Nat.digitChar).reverse
        = (L.map Nat.digitChar).reverse ++ [Nat.digitChar d] := by
      simp
    rw [hrev, List.foldl_append, ih (fun x hx => hL x (List.mem_cons_of_mem d hx))]
    simp only [List.foldl_cons, List.foldl_nil, Nat.ofDigits_cons, List.length_cons]
    rw [charVal_digitChar d (hL d (List.mem_cons_self d L))]
    ring

/-- The decoder `decodeChars` inverts the unpadded decimal rendering. -/
theorem decode_digitsChars (n : ℕ) : decodeChars (digitsChars n) = n := by
  rw [decodeChars, digitsChars, digitsLE_eq_digits,
    decode_aux (Nat.digits 10 n)
      (fun d hd => Nat.digits_lt_base (by norm_num) hd)]
  simpa using congrArg (fun m => (m : ℕ)) (Nat.ofDigits_digits 10 n)

/-- Leading zero characters do not change the decoded value. -/
theorem decode_replicate_zero (k : ℕ) (l : List Char) :
    decodeChars (List.replicate k '0' ++ l) = decodeChars l := by
  induction k with
  | zero => rfl
  | succ k ih =>
    rw [List.replicate_succ, List.cons_append]
    exact ih

/-- The decoder `decodeChars` inverts the zero-padded rendering of `%04d`. -/
theorem decode_padChars (n : ℕ) : decodeChars (padChars n) = n := by
  rw [padChars, decode_replicate_zero, decode_digitsChars]

/-- The padded rendering is injective. -/
theorem padChars_injective : Function.Injective padChars := by
  intro n m h
  have := congrArg decodeChars h
  rwa [decode_padChars, decode_padChars] at this

/-- Within one run, `mkID` is injective in the counter value. -/
theorem mkID_injective (runID : String) : Function.Injective (mkID runID) := by
  intro n m h
  have hd := congrArg String.data h
  simp only [mkID, String.data_append] at hd
  exact padChars_injective (List.append_cancel_left hd)

/-- The pass `assignIDs` preserves length. -/
theorem assignIDs_length (runID : String) :
    ∀ (n : ℕ) (l : List ReconciliationResult),
      (assignIDs runID n l).length = l.length := by
  intro n l
  induction l generalizing n with
  | nil => rfl
  | cons r rs ih => simp [assignIDs, ih]

/-- The identifiers assigned by `assignIDs` are the consecutive counter
values rendered by `mkID`. -/
theorem assignIDs_map_id (runID : String) :
    ∀ (n : ℕ) (l : List ReconciliationResult),
      (assignIDs runID n l).map (·.id)
        = (List.range' (n + 1) l.length).map (mkID runID) := by
  intro n l
  induction l generalizing n with
  | nil => rfl
  | cons r rs ih => simp [assignIDs, List.range'_succ, ih]

/-- The identifiers assigned by `assignIDs` are pairwise distinct. -/
theorem assignIDs_nodup (runID : String) (n : ℕ)
    (l : List ReconciliationResult) :
    ((assignIDs runID n l).map (·.id)).Nodup := by
  rw [assignIDs_map_id]
  exact (List.nodup_range' _ _).map (mkID_injective runID)

/-- Every element of `assignIDs` is an input element with only the id field
rewritten. -/
theorem mem_assignIDs (runID : String) :
    ∀ (n : ℕ) (l : List ReconciliationResult) (o : ReconciliationResult),
      o ∈ assignIDs runID n l → ∃ r ∈ l, ∃ m, o = { r with id := mkID runID m } := by
  intro n l
  induction l generalizing n with
  | nil => intro o h; cases h
  | cons r rs ih =>
    intro o h
    rcases List.mem_cons.mp h with heq | hmem
    · exact ⟨r, List.mem_cons_self r rs, n + 1, heq⟩
    · obtain ⟨r0, hr0, m, hm⟩ := ih (n + 1) o hmem
      exact ⟨r0, List.mem_cons_of_mem r hr0, m, hm⟩

/-- Conversely, every input element appears in `assignIDs` with some id. -/
theorem mem_assignIDs_of_mem (runID : String) :
    ∀ (n : ℕ) (l : List ReconciliationResult) (r : ReconciliationResult),
      r ∈ l → ∃ m, { r with id := mkID runID m } ∈ assignIDs runID n l := by
  intro n l
  induction l generalizing n with
  | nil => intro r h; cases h
  | cons r0 rs ih =>
    intro r h
    rcases List.mem_cons.mp h with heq | hmem
    · subst heq; exact ⟨n + 1, List.mem_cons_self _ _⟩
    · obtain ⟨m, hm⟩ := ih (n + 1) r hmem
      exact ⟨m, List.mem_cons_of_mem _ hm⟩

/-- Filtering by an id-insensitive predicate commutes with `assignIDs`. -/
theorem assignIDs_filter_length (runID : String)
    (p : ReconciliationResult → Bool)
    (hp : ∀ (r : ReconciliationResult) (x : String), p { r with id := x } = p r) :
    ∀ (n : ℕ) (l : List ReconciliationResult),
      ((assignIDs runID n l).filter p).length = (l.filter p).length := by
  intro n l
  induction l generalizing n with
  | nil => rfl
  | cons r rs ih =>
    simp only [assignIDs, List.filter_cons, hp r (mkID runID (n + 1))]
    by_cases hpr : p r = true
    · simp [hpr, ih]
    · simp [hpr, ih]

/-- The function `Run` is `buildReport` applied to the emitted outcome list. -/
theorem run_eq_buildReport (cfg : ReconciliationConfig) (rid : String)
    (ts : List Transaction) (ss : List SettlementRecord) :
    Run cfg rid ts ss = buildReport cfg rid ts ss (runResultsList cfg rid ts ss) := rfl

/-- The aggregation loop never touches the `results` field. -/
theorem reportStep_results (cfg : ReconciliationConfig)
    (rep : ReconciliationReport) (res : ReconciliationResult) :
    (reportStep cfg rep res).results = rep.results := rfl

/-- The aggregation loop updates the summary by `addToSummary`. -/
theorem reportStep_summary (cfg : ReconciliationConfig)
    (rep : ReconciliationReport) (res : ReconciliationResult) :
    (reportStep cfg rep res).summary = addToSummary rep.summary res := rfl

/-- The update `addToSummary` never touches the reconciliation rate. -/
theorem addToSummary_rate (su : ReportSummary) (res : ReconciliationResult) :
    (addToSummary su res).reconciliationRate = su.reconciliationRate := by
  unfold addToSummary
  cases res.status <;> rfl

/-- The `results` field survives the aggregation fold. -/
theorem foldl_reportStep_results (cfg : ReconciliationConfig) :
    ∀ (l : List ReconciliationResult) (rep : ReconciliationReport),
      (l.foldl (reportStep cfg) rep).results = rep.results := by
  intro l
  induction l with
  | nil => intro rep; rfl
  | cons r rs ih => intro rep; rw [List.foldl_cons, ih, reportStep_results]

/-- The reconciliation rate survives the aggregation fold. -/
theorem foldl_reportStep_rate (cfg : ReconciliationConfig) :
    ∀ (l : List ReconciliationResult) (rep : ReconciliationReport),
      (l.foldl (reportStep cfg) rep).summary.reconciliationRate
        = rep.summary.reconciliationRate := by
  intro l
  induction l with
  | nil => intro rep; rfl
  | cons r rs ih =>
    intro rep
    rw [List.foldl_cons, ih, reportStep_summary, addToSummary_rate]

/-- The update `finalizeRate` never changes the five status counters. -/
theorem finalizeRate_counts (su : ReportSummary) :
    (finalizeRate su).matched = su.matched ∧
    (finalizeRate su).matchedWithVariance = su.matchedWithVariance ∧
    (finalizeRate su).unsettled = su.unsettled ∧
    (finalizeRate su).unexpectedSettlements = su.unexpectedSettlements ∧
    (finalizeRate su).duplicates = su.duplicates := by
  simp only [finalizeRate]
  split <;> exact ⟨rfl, rfl, rfl, rfl, rfl⟩

/-- The rate written by `finalizeRate` in terms of the incoming summary. -/
theorem finalizeRate_rate (su : ReportSummary) :
    (finalizeRate su).reconciliationRate
      = if 0 < su.matched + su.matchedWithVariance + su.unsettled
            + su.unexpectedSettlements + su.duplicates
        then (su.matched + su.matchedWithVariance : ℚ)
          / ((su.matched + su.matchedWithVariance + su.unsettled
            + su.unexpectedSettlements + su.duplicates : ℕ) : ℚ) * 100
        else su.reconciliationRate := by
  simp only [finalizeRate]
  split
  · rfl
  · rfl

/-- The report's outcome list is exactly the list `buildReport` was given. -/
theorem buildReport_results (cfg : ReconciliationConfig) (rid : String)
    (ts : List Transaction) (ss : List SettlementRecord)
    (rs : List ReconciliationResult) :
    (buildReport cfg rid ts ss rs).results = rs :=
  foldl_reportStep_results cfg rs _

/-- The outcome list of a run. -/
theorem run_results (cfg : ReconciliationConfig) (rid : String)
    (ts : List Transaction) (ss : List SettlementRecord) :
    (Run cfg rid ts ss).results = runResultsList cfg rid ts ss := by
  rw [run_eq_buildReport, buildReport_results]

/-- Claim C9. The identifiers of the emitted outcomes are
`RR-<runID>-%04d` of the consecutive counter values `1, 2, …` in emission
order, and are therefore pairwise distinct within a run. -/
theorem c9_identifiers (cfg : ReconciliationConfig) (rid : String)
    (ts : List Transaction) (ss : List SettlementRecord) :
    (Run cfg rid ts ss).results.map (·.id)
      = (List.range' 1 (Run cfg rid ts ss).results.length).map (mkID rid) ∧
    ((Run cfg rid ts ss).results.map (·.id)).Nodup := by
  rw [run_results]
  unfold runResultsList
  rw [assignIDs_length]
  exact ⟨assignIDs_map_id rid 0 _, assignIDs_nodup rid 0 _⟩

/-- The emitted outcome list of any run has pairwise distinct identifiers. -/
theorem runResultsList_nodup_ids (cfg : ReconciliationConfig) (rid : String)
    (ts : List Transaction) (ss : List SettlementRecord) :
    ((runResultsList cfg rid ts ss).map (·.id)).Nodup :=
  assignIDs_nodup rid 0 _

/-- Claim C7. The reconciliation rate of every report is
`(matched + matched_with_variance) / (matched + matched_with_variance +
unsettled + unexpected_settlements + duplicates) * 100` when the denominator
is positive, and `0` when the denominator is `0`. -/
theorem c7_rate_formula (cfg : ReconciliationConfig) (rid : String)
    (ts : List Transaction) (ss : List SettlementRecord) :
    (Run cfg rid ts ss).summary.reconciliationRate
      = if 0 < (Run cfg rid ts ss).summary.matched
            + (Run cfg rid ts ss).summary.matchedWithVariance
            + (Run cfg rid ts ss).summary.unsettled
            + (Run cfg rid ts ss).summary.unexpectedSettlements
            + (Run cfg rid ts ss).summary.duplicates
        then ((Run cfg rid ts ss).summary.matched
            + (Run cfg rid ts ss).summary.matchedWithVariance : ℚ)
          / (((Run cfg rid ts ss).summary.matched
            + (Run cfg rid ts ss).summary.matchedWithVariance
            + (Run cfg rid ts ss).summary.unsettled
            + (Run cfg rid ts ss).summary.unexpectedSettlements
            + (Run cfg rid ts ss).summary.duplicates : ℕ) : ℚ) * 100
        else 0 := by
  have hsum : (Run cfg rid ts ss).summary
      = finalizeRate ((runResultsList cfg rid ts ss).foldl (reportStep cfg)
          { runID := rid
            summary := { zeroSummary with
              totalTransactions := ts.length, totalSettlements := ss.length }
            byCurrency := [], byCountry := [], byProcessor := []
            results := runResultsList cfg rid ts ss, highPriority := [] }).summary := rfl
  obtain ⟨hm, hw, hu, hx, hd⟩ := finalizeRate_counts
    ((runResultsList cfg rid ts ss).foldl (reportStep cfg)
      { runID := rid
        summary := { zeroSummary with
          totalTransactions := ts.length, totalSettlements := ss.length }
        byCurrency := [], byCountry := [], byProcessor := []
        results := runResultsList cfg rid ts ss, highPriority := [] }).summary
  rw [hsum, finalizeRate_rate, hm, hw, hu, hx, hd,
    foldl_reportStep_rate cfg (runResultsList cfg rid ts ss)]
  simp [zeroSummary]

/-- One aggregation step extends the high-priority list by the processed
outcome exactly when it qualifies, provided no already-selected outcome
shares its identifier (the dedup scan then cannot misfire). -/
theorem reportStep_hp (cfg : ReconciliationConfig) (rep : ReconciliationReport)
    (res : ReconciliationResult)
    (hids : ∀ o ∈ rep.highPriority, o.id ≠ res.id) :
    (reportStep cfg rep res).highPriority
      = if hpQual cfg res then rep.highPriority ++ [res]
        else rep.highPriority := by
  simp only [reportStep]
  by_cases hA : res.status ≠ .matched
      ∧ qabs res.varianceAmount ≥ cfg.highPriorityThreshold
  · have hq : hpQual cfg res = true := by
      simp [hpQual, hA.1, hA.2]
    rw [if_pos hA, hq, if_pos rfl]
    have hany : (rep.highPriority ++ [res]).any (fun o => o.id = res.id) = true := by
      simp [List.any_append]
    cases hds : res.daysToSettle with
    | none => rfl
    | some d => split <;> simp [hany]
  · rw [if_neg hA]
    have hany : rep.highPriority.any (fun o => o.id = res.id) = false := by
      rw [List.any_eq_false]
      intro o ho
      simpa using hids o ho
    have hdec : (decide (res.status ≠ .matched)
        && decide (qabs res.varianceAmount ≥ cfg.highPriorityThreshold)) = false := by
      rw [← Bool.decide_and]
      exact decide_eq_false hA
    cases hds : res.daysToSettle with
    | none =>
      have hq : hpQual cfg res = false := by
        simp [hpQual, hds, hdec]
        exact fun hp => not_le.mp fun hge => hA ⟨hp, hge⟩
      rw [hq]
      simp
    | some d =>
      by_cases hlate : d > cfg.lateSettlementDays
      · have hq : hpQual cfg res = true := by simp [hpQual, hds, hlate]
        rw [hq, if_pos rfl]
        simp [hlate, hany]
      · have hq : hpQual cfg res = false := by
          simp [hpQual, hds, hlate, hdec]
          exact fun hp => not_le.mp fun hge => hA ⟨hp, hge⟩
        rw [hq]
        simp [hlate]

/-- The aggregation fold selects exactly the qualifying outcomes, in arrival
order, when all identifiers are distinct. -/
theorem foldl_reportStep_hp (cfg : ReconciliationConfig) :
    ∀ (l processed : List ReconciliationResult) (rep : ReconciliationReport),
      rep.highPriority = processed.filter (hpQual cfg) →
      (((processed ++ l).map (·.id)).Nodup) →
      (l.foldl (reportStep cfg) rep).highPriority
        = (processed ++ l).filter (hpQual cfg) := by
  intro l
  induction l with
  | nil =>
    intro processed rep h _
    simpa using h
  | cons res l ih =>
    intro processed rep hrep hnodup
    rw [List.foldl_cons]
    have hids : ∀ o ∈ rep.highPriority, o.id ≠ res.id := by
      intro o ho heq
      rw [hrep] at ho
      have homem : o ∈ processed := List.mem_of_mem_filter ho
      have hdisj := (List.nodup_append.mp
        (by rwa [List.map_append] at hnodup)).2.2
      exact hdisj (List.mem_map_of_mem _ homem)
        (by rw [heq]; exact List.mem_map_of_mem _ (List.mem_cons_self res l))
    have hrep2 : (reportStep cfg rep res).highPriority
        = (processed ++ [res]).filter (hpQual cfg) := by
      rw [reportStep_hp cfg rep res hids, hrep, List.filter_append]
      by_cases hq : hpQual cfg res = true
      · simp [hq]
      · simp [List.filter_cons, hq]
    have hnodup2 : (((processed ++ [res]) ++ l).map (·.id)).Nodup := by
      simpa [List.append_assoc] using hnodup
    rw [ih (processed ++ [res]) _ hrep2 hnodup2]
    simp [List.append_assoc]

/-- The report's high-priority list is the sorted filter of the qualifying
outcomes, when all identifiers are distinct. -/
theorem buildReport_hp (cfg : ReconciliationConfig) (rid : String)
    (ts : List Transaction) (ss : List SettlementRecord)
    (rs : List ReconciliationResult) (h : (rs.map (·.id)).Nodup) :
    (buildReport cfg rid ts ss rs).highPriority
      = sortHP (rs.filter (hpQual cfg)) := by
  have hstep : (buildReport cfg rid ts ss rs).highPriority
      = sortHP ((rs.foldl (reportStep cfg)
          { runID := rid
            summary := { zeroSummary with
              totalTransactions := ts.length, totalSettlements := ss.length }
            byCurrency := [], byCountry := [], byProcessor := []
            results := rs, highPriority := [] }).highPriority) := rfl
  rw [hstep, foldl_reportStep_hp cfg rs [] _ rfl (by simpa using h)]
  simp

/-- The high-priority list of a run. -/
theorem run_hp (cfg : ReconciliationConfig) (rid : String)
    (ts : List Transaction) (ss : List SettlementRecord) :
    (Run cfg rid ts ss).highPriority
      = sortHP ((runResultsList cfg rid ts ss).filter (hpQual cfg)) := by
  rw [run_eq_buildReport,
    buildReport_hp cfg rid ts ss _ (runResultsList_nodup_ids cfg rid ts ss)]

/-- The Boolean qualification spelled out as a proposition. -/
theorem hpQual_iff (cfg : ReconciliationConfig) (o : ReconciliationResult) :
    hpQual cfg o = true ↔
      ((o.status ≠ .matched ∧ cfg.highPriorityThreshold ≤ |o.varianceAmount|)
        ∨ (∃ d, o.daysToSettle = some d ∧ cfg.lateSettlementDays < d)) := by
  cases hd : o.daysToSettle with
  | none => simp [hpQual, hd, qabs_eq_abs, ge_iff_le]
  | some d => simp [hpQual, hd, qabs_eq_abs, ge_iff_le, gt_iff_lt]

/-- Claim C8. An outcome is in the report's high-priority list iff it is an
emitted outcome whose status is not `matched` with `|variance|` at or above
the threshold, or whose days-to-settle exceeds the late threshold; and no
outcome occurs twice in the list even when both criteria hold. -/
theorem c8_high_priority (cfg : ReconciliationConfig) (rid : String)
    (ts : List Transaction) (ss : List SettlementRecord)
    (o : ReconciliationResult) :
    (o ∈ (Run cfg rid ts ss).highPriority ↔
      o ∈ (Run cfg rid ts ss).results ∧
        ((o.status ≠ .matched ∧ cfg.highPriorityThreshold ≤ |o.varianceAmount|)
          ∨ (∃ d, o.daysToSettle = some d ∧ cfg.lateSettlementDays < d))) ∧
    (Run cfg rid ts ss).highPriority.count o ≤ 1 := by
  have hperm : List.Perm
      (sortHP ((runResultsList cfg rid ts ss).filter (hpQual cfg)))
      ((runResultsList cfg rid ts ss).filter (hpQual cfg)) :=
    List.perm_insertionSort _ _
  constructor
  · rw [run_hp, run_results, hperm.mem_iff, List.mem_filter, hpQual_iff]
  · rw [run_hp, hperm.count_eq]
    calc ((runResultsList cfg rid ts ss).filter (hpQual cfg)).count o
        ≤ (runResultsList cfg rid ts ss).count o :=
          (List.filter_sublist _).count_le o
      _ ≤ 1 := List.nodup_iff_count_le_one.mp
          (List.Nodup.of_map _ (runResultsList_nodup_ids cfg rid ts ss)) o

/-- The status of a duplicate outcome. -/
theorem dupResult_status (k : String) (cnt : ℕ) (txnOpt : Option Transaction)
    (s : SettlementRecord) : (dupResult k cnt txnOpt s).status = .duplicate := by
  cases txnOpt <;> rfl

/-- The classification of a matched pair never yields `unsettled`,
`unexpected_settlement` or `duplicate`. -/
theorem classifyPair_status (cfg : ReconciliationConfig) (t : Transaction)
    (s : SettlementRecord) :
    (classifyPair cfg t s).1 = .matched
      ∨ (classifyPair cfg t s).1 = .matchedWithVariance := by
  rw [classifyPair_def]
  split_ifs <;> simp

/-- Every outcome accumulated by the phase-2 fold is an initial outcome, an
unexpected settlement for a snapshot member, or a matched outcome for a
snapshot member. -/
theorem phase2_foldl_mem (cfg : ReconciliationConfig)
    (bp bo : List (String × Transaction)) (dks : List String) :
    ∀ (l : List SettlementRecord) (st : Phase2State) (r : ReconciliationResult),
      r ∈ (l.foldl (phase2Step cfg bp bo dks) st).results →
      r ∈ st.results ∨ (∃ s ∈ l, r = unexpectedResult s)
        ∨ (∃ t, ∃ s ∈ l, r = matchedResult cfg t s) := by
  intro l
  induction l with
  | nil => intro st r hr; exact Or.inl hr
  | cons s l ih =>
    intro st r hr
    rw [List.foldl_cons] at hr
    rcases ih (phase2Step cfg bp bo dks st s) r hr with hin | hunex | hmat
    · unfold phase2Step at hin
      split at hin
      · exact Or.inl hin
      · split at hin
        · exact Or.inl hin
        · split at hin
          · rcases List.mem_append.mp hin with h | h
            · exact Or.inl h
            · exact Or.inr (Or.inl ⟨s, List.mem_cons_self s l, List.mem_singleton.mp h⟩)
          · rcases List.mem_append.mp hin with h | h
            · exact Or.inl h
            · next t _ =>
              exact Or.inr (Or.inr ⟨t, s, List.mem_cons_self s l, List.mem_singleton.mp h⟩)
    · obtain ⟨s0, hs0, hr0⟩ := hunex
      exact Or.inr (Or.inl ⟨s0, List.mem_cons_of_mem s hs0, hr0⟩)
    · obtain ⟨t0, s0, hs0, hr0⟩ := hmat
      exact Or.inr (Or.inr ⟨t0, s0, List.mem_cons_of_mem s hs0, hr0⟩)

/-- An unsettled outcome of a run carries variance `0` and no days-to-settle
(the phase-3 emission is the only source of the `unsettled` status). -/
theorem run_unsettled_fields (cfg : ReconciliationConfig) (rid : String)
    (ts : List Transaction) (ss : List SettlementRecord)
    (o : ReconciliationResult) (ho : o ∈ runResultsList cfg rid ts ss)
    (hstat : o.status = .unsettled) :
    o.varianceAmount = 0 ∧ o.daysToSettle = none := by
  obtain ⟨r, hr, m, rfl⟩ := mem_assignIDs rid 0 _ o ho
  have hstat2 : r.status = .unsettled := hstat
  suffices hsuf : r.varianceAmount = 0 ∧ r.daysToSettle = none from hsuf
  rcases List.mem_append.mp hr with h12 | h3
  · rcases List.mem_append.mp h12 with h1 | h2
    · obtain ⟨k, hk, hrk⟩ := List.mem_flatMap.mp h1
      obtain ⟨s, hs, heq⟩ := List.mem_map.mp hrk
      rw [← heq, dupResult_status] at hstat2
      cases hstat2
    · rcases phase2_foldl_mem cfg _ _ _ ss _ r h2 with hin | hunex | hmat
      · have hnil : r ∈ ([] : List ReconciliationResult) := hin
        cases hnil
      · obtain ⟨s0, _, rfl⟩ := hunex
        have : ReconciliationStatus.unexpectedSettlement = .unsettled := hstat2
        cases this
      · obtain ⟨t0, s0, _, rfl⟩ := hmat
        rw [matchedResult_status] at hstat2
        rcases classifyPair_status cfg t0 s0 with h | h <;>
          (rw [h] at hstat2; cases hstat2)
  · obtain ⟨t0, ht0, hsome⟩ := List.mem_filterMap.mp h3
    split at hsome
    · cases hsome
    · cases Option.some_injective _ hsome
      exact ⟨rfl, rfl⟩

/-- Claim C10. With a strictly positive high-priority threshold, no `unsettled`
outcome ever reaches the high-priority list: such outcomes carry variance
`0` and no days-to-settle, so neither criterion can hold. -/
theorem c10_no_unsettled (cfg : ReconciliationConfig) (rid : String)
    (ts : List Transaction) (ss : List SettlementRecord)
    (h : 0 < cfg.highPriorityThreshold) :
    ∀ o ∈ (Run cfg rid ts ss).highPriority, o.status ≠ .unsettled := by
  intro o ho hstat
  rw [run_hp] at ho
  have ho2 : o ∈ (runResultsList cfg rid ts ss).filter (hpQual cfg) :=
    (List.perm_insertionSort _ _).mem_iff.mp ho
  obtain ⟨homem, hqual⟩ := List.mem_filter.mp ho2
  obtain ⟨hvar, hdays⟩ := run_unsettled_fields cfg rid ts ss o homem hstat
  rcases (hpQual_iff cfg o).mp hqual with ⟨_, hth⟩ | ⟨d, hd, _⟩
  · rw [hvar] at hth
    simp at hth
    exact absurd (lt_of_lt_of_le h hth) (lt_irrefl 0)
  · rw [hdays] at hd
    cases hd

/-- Filtered length distributes over `flatMap` as a sum. -/
theorem filter_flatMap_count {α β : Type} (g : α → List β) (p : β → Bool) :
    ∀ K : List α, ((K.flatMap g).filter p).length
      = (K.map (fun k => ((g k).filter p).length)).sum := by
  intro K
  induction K with
  | nil => rfl
  | cons k K ih =>
    rw [List.flatMap_cons, List.filter_append, List.length_append, ih,
      List.map_cons, List.sum_cons]

/-- Length distributes over `flatMap` as a sum. -/
theorem length_flatMap_sum {α β : Type} (g : α → List β) (K : List α) :
    (K.flatMap g).length = (K.map (fun k => (g k).length)).sum := by
  induction K with
  | nil => rfl
  | cons k K ih =>
    rw [List.flatMap_cons, List.length_append, ih, List.map_cons, List.sum_cons]

/-- Pointwise sums of mapped naturals split. -/
theorem sum_map_add {α : Type} (f g : α → ℕ) :
    ∀ K : List α, (K.map (fun k => f k + g k)).sum
      = (K.map f).sum + (K.map g).sum := by
  intro K
  induction K with
  | nil => rfl
  | cons k K ih =>
    simp only [List.map_cons, List.sum_cons, ih]
    omega

/-- Over a duplicate-free list, an indicator sums to a membership test. -/
theorem sum_indicator {α : Type} [DecidableEq α] (a : α) :
    ∀ K : List α, K.Nodup →
      (K.map (fun k => if a = k then 1 else 0)).sum = if a ∈ K then 1 else 0 := by
  intro K
  induction K with
  | nil => simp
  | cons k K ih =>
    intro hnd
    rw [List.map_cons, List.sum_cons, ih (List.nodup_cons.mp hnd).2]
    by_cases hak : a = k
    · subst hak
      rw [if_pos rfl, if_neg (List.nodup_cons.mp hnd).1, if_pos (List.mem_cons_self a K)]
    · rw [if_neg hak]
      by_cases ham : a ∈ K
      · rw [if_pos ham, if_pos (List.mem_cons_of_mem k ham)]
      · rw [if_neg ham, if_neg (fun h => by
          rcases List.mem_cons.mp h with h | h
          · exact hak h
          · exact ham h)]

/-- A sum of per-element counts that are all at least one dominates the
length. -/
theorem length_le_sum {α : Type} (f : α → ℕ) :
    ∀ K : List α, (∀ k ∈ K, 1 ≤ f k) → K.length ≤ (K.map f).sum := by
  intro K
  induction K with
  | nil => intro _; simp
  | cons k K ih =>
    intro h
    rw [List.map_cons, List.sum_cons, List.length_cons]
    have h1 := h k (List.mem_cons_self k K)
    have h2 := ih (fun x hx => h x (List.mem_cons_of_mem k hx))
    omega

/-- Splitting a length by a predicate. -/
theorem filter_length_split {α : Type} (p : α → Bool) :
    ∀ l : List α, (l.filter p).length + (l.filter (fun a => !(p a))).length
      = l.length := by
  intro l
  induction l with
  | nil => rfl
  | cons a l ih =>
    simp only [List.filter_cons, List.length_cons]
    cases hp : p a <;> simp [hp] <;> omega

/-- A duplicate-free list contained in another is no longer than it. -/
theorem nodup_subset_length_le {α : Type} [DecidableEq α] {d m : List α}
    (hd : d.Nodup) (hsub : d ⊆ m) : d.length ≤ m.length :=
  (hd.subperm hsub).length_le

/-- Members of a list with duplicate-free ids are determined by their id. -/
theorem settlement_id_inj {ss : List SettlementRecord}
    (hS : (ss.map (·.id)).Nodup) :
    ∀ x ∈ ss, ∀ y ∈ ss, x.id = y.id → x = y :=
  List.inj_on_of_nodup_map hS

/-- Under duplicate-free ids, filtering a snapshot by one member's id leaves
exactly that member. -/
theorem filter_id_singleton {ss : List SettlementRecord}
    (hS : (ss.map (·.id)).Nodup) {s : SettlementRecord} (hs : s ∈ ss) :
    ss.filter (fun x => x.id = s.id) = [s] := by
  induction ss with
  | nil => cases hs
  | cons x ss ih =>
    rw [List.map_cons, List.nodup_cons] at hS
    rw [List.filter_cons]
    rcases List.mem_cons.mp hs with heq | hmem
    · rw [if_pos (by rw [heq]; simp)]
      have hempty : ss.filter (fun y => y.id = s.id) = [] := by
        rw [List.filter_eq_nil_iff]
        intro y hy
        simp only [decide_eq_true_eq]
        intro hid
        apply hS.1
        rw [← heq, ← hid]
        exact List.mem_map_of_mem _ hy
      rw [hempty, heq]
    · have hneq : ¬ (x.id = s.id) := by
        intro h
        apply hS.1
        rw [h]
        exact List.mem_map_of_mem _ hmem
      rw [if_neg (by simpa using hneq)]
      exact ih hS.2 hmem

/-- The duplicate-key list is duplicate-free. -/
theorem duplicateKeys_nodup (ss : List SettlementRecord) :
    (duplicateKeys ss).Nodup :=
  (List.nodup_dedup _).filter _

/-- Members of a settlement group carry that key and come from the
snapshot. -/
theorem mem_settlementGroup {ss : List SettlementRecord} {k : String}
    {s : SettlementRecord} :
    s ∈ settlementGroup ss k ↔ s ∈ ss ∧ pKeyOfS s = k := by
  unfold settlementGroup
  rw [List.mem_filter]
  simp

/-- A settlement's id is consumed by phase 1 exactly when its key is a
duplicate key (given duplicate-free settlement ids). -/
theorem mem_phase1SettIDs_iff {ss : List SettlementRecord}
    (hS : (ss.map (·.id)).Nodup) {s : SettlementRecord} (hs : s ∈ ss) :
    s.id ∈ phase1SettIDs ss ↔ pKeyOfS s ∈ duplicateKeys ss := by
  unfold phase1SettIDs
  rw [List.mem_flatMap]
  constructor
  · rintro ⟨k, hk, hid⟩
    obtain ⟨x, hx, hxid⟩ := List.mem_map.mp hid
    obtain ⟨hxss, hxkey⟩ := mem_settlementGroup.mp hx
    have hxs : x = s := settlement_id_inj hS x hxss s hs hxid
    rw [← hxs, hxkey]
    exact hk
  · intro hk
    exact ⟨pKeyOfS s, hk,
      List.mem_map_of_mem _ (mem_settlementGroup.mpr ⟨hs, rfl⟩)⟩

/-- The phase-2 fold emits exactly `phase2Emit` per remaining settlement,
relative to a consumed-id set that mirrors the duplicate keys. -/
theorem phase2_foldl_eq (cfg : ReconciliationConfig)
    (bp bo : List (String × Transaction)) (dks : List String) :
    ∀ (l : List SettlementRecord) (st : Phase2State),
      (∀ s ∈ l, (s.id ∈ st.matchedSettIDs ↔ pKeyOfS s ∈ dks)) →
      ((l.map (·.id)).Nodup) →
      (l.foldl (phase2Step cfg bp bo dks) st).results
        = st.results ++ l.filterMap (phase2Emit cfg bp bo dks) := by
  intro l
  induction l with
  | nil => intro st _ _; simp
  | cons s l ih =>
    intro st hinv hnd
    have hiff := hinv s (List.mem_cons_self s l)
    rw [List.map_cons] at hnd
    have hnd2 := List.nodup_cons.mp hnd
    rw [List.foldl_cons]
    by_cases hdk : pKeyOfS s ∈ dks
    · have hmem : s.id ∈ st.matchedSettIDs := hiff.mpr hdk
      have hstep : phase2Step cfg bp bo dks st s = st := by
        unfold phase2Step
        rw [if_pos hmem]
      rw [hstep, List.filterMap_cons,
        show phase2Emit cfg bp bo dks s = none from if_pos hdk]
      exact ih st (fun x hx => hinv x (List.mem_cons_of_mem s hx)) hnd2.2
    · have hmem : s.id ∉ st.matchedSettIDs := fun h => hdk (hiff.mp h)
      have hinv2 : ∀ x ∈ l, (x.id ∈ s.id :: st.matchedSettIDs
          ↔ pKeyOfS x ∈ dks) := by
        intro x hx
        have hne : x.id ≠ s.id := by
          intro h
          exact hnd2.1 (h ▸ List.mem_map_of_mem _ hx)
        rw [List.mem_cons]
        constructor
        · rintro (h | h)
          · exact absurd h hne
          · exact (hinv x (List.mem_cons_of_mem s hx)).mp h
        · intro h
          exact Or.inr ((hinv x (List.mem_cons_of_mem s hx)).mpr h)
      cases hfind : findTransaction (pKeyOfS s) s.orderReference bp bo with
      | none =>
        have hstep : phase2Step cfg bp bo dks st s =
            { results := st.results ++ [unexpectedResult s]
              matchedTxnIDs := st.matchedTxnIDs
              matchedSettIDs := s.id :: st.matchedSettIDs } := by
          unfold phase2Step
          rw [if_neg hmem, if_neg hdk, hfind]
        rw [hstep, List.filterMap_cons,
          show phase2Emit cfg bp bo dks s = some (unexpectedResult s) by
            unfold phase2Emit; rw [if_neg hdk, hfind],
          ih _ hinv2 hnd2.2]
        simp
      | some t =>
        have hstep : phase2Step cfg bp bo dks st s =
            { results := st.results ++ [matchedResult cfg t s]
              matchedTxnIDs := t.id :: st.matchedTxnIDs
              matchedSettIDs := s.id :: st.matchedSettIDs } := by
          unfold phase2Step
          rw [if_neg hmem, if_neg hdk, hfind]
        rw [hstep, List.filterMap_cons,
          show phase2Emit cfg bp bo dks s = some (matchedResult cfg t s) by
            unfold phase2Emit; rw [if_neg hdk, hfind],
          ih _ hinv2 hnd2.2]
        simp

/-- Under duplicate-free settlement ids, the phase-2 results are exactly the
per-settlement emissions in snapshot order. -/
theorem phase2_results_eq (cfg : ReconciliationConfig)
    (bp bo : List (String × Transaction)) (ss : List SettlementRecord)
    (hS : (ss.map (·.id)).Nodup) :
    (phase2 cfg bp bo ss).results
      = ss.filterMap (phase2Emit cfg bp bo (duplicateKeys ss)) := by
  unfold phase2
  rw [phase2_foldl_eq cfg bp bo (duplicateKeys ss) ss _
    (fun s hs => mem_phase1SettIDs_iff hS hs) hS]
  rfl

/-- A duplicate outcome references the settlement it was emitted for. -/
theorem dupResult_settID (k : String) (cnt : ℕ) (txnOpt : Option Transaction)
    (s : SettlementRecord) : (dupResult k cnt txnOpt s).settlementID = s.id := by
  cases txnOpt <;> rfl

/-- A phase-2 emission references the settlement it was emitted for. -/
theorem phase2Emit_settID (cfg : ReconciliationConfig)
    (bp bo : List (String × Transaction)) (dks : List String)
    (s : SettlementRecord) (o : ReconciliationResult)
    (h : phase2Emit cfg bp bo dks s = some o) : o.settlementID = s.id := by
  unfold phase2Emit at h
  split at h
  · cases h
  · split at h
    · cases h; rfl
    · cases h; rfl

/-- Phase 2 emits nothing exactly for duplicate keys. -/
theorem phase2Emit_eq_none_iff (cfg : ReconciliationConfig)
    (bp bo : List (String × Transaction)) (dks : List String)
    (s : SettlementRecord) :
    phase2Emit cfg bp bo dks s = none ↔ pKeyOfS s ∈ dks := by
  unfold phase2Emit
  split
  · next h => simp [h]
  · next h =>
    split <;> simp [h]

/-- No phase-2 outcome can reference an id that does not occur in the
processed list. -/
theorem count_filterMap_zero (cfg : ReconciliationConfig)
    (bp bo : List (String × Transaction)) (dks : List String) (sid : String) :
    ∀ l : List SettlementRecord, sid ∉ l.map (·.id) →
      ((l.filterMap (phase2Emit cfg bp bo dks)).filter
        (fun o => o.settlementID = sid)).length = 0 := by
  intro l
  induction l with
  | nil => intro _; rfl
  | cons x l ih =>
    intro hsid
    rw [List.map_cons] at hsid
    have hx : sid ≠ x.id := fun h => hsid (h ▸ List.mem_cons_self _ _)
    have hl : sid ∉ l.map (·.id) := fun h => hsid (List.mem_cons_of_mem _ h)
    rw [List.filterMap_cons]
    cases hemit : phase2Emit cfg bp bo dks x with
    | none => exact ih hl
    | some o =>
      rw [List.filter_cons, if_neg (by
        simp only [decide_eq_true_eq]
        rw [phase2Emit_settID cfg bp bo dks x o hemit]
        exact fun h => hx h.symm)]
      exact ih hl

/-- Each settlement contributes exactly one phase-2 outcome referencing its
id when its key is not duplicated, and none otherwise. -/
theorem count_filterMap_emit (cfg : ReconciliationConfig)
    (bp bo : List (String × Transaction)) (dks : List String) :
    ∀ (ss : List SettlementRecord), (ss.map (·.id)).Nodup →
      ∀ s ∈ ss,
      ((ss.filterMap (phase2Emit cfg bp bo dks)).filter
        (fun o => o.settlementID = s.id)).length
        = if pKeyOfS s ∈ dks then 0 else 1 := by
  intro ss
  induction ss with
  | nil => intro _ s hs; cases hs
  | cons x ss ih =>
    intro hS s hs
    rw [List.map_cons, List.nodup_cons] at hS
    rw [List.filterMap_cons]
    rcases List.mem_cons.mp hs with heq | hmem
    · cases hemit : phase2Emit cfg bp bo dks x with
      | none =>
        have hdk : pKeyOfS x ∈ dks := (phase2Emit_eq_none_iff _ _ _ _ _).mp hemit
        rw [count_filterMap_zero cfg bp bo dks s.id ss (by rw [heq]; exact hS.1),
          if_pos (heq ▸ hdk)]
      | some o =>
        have hdk : pKeyOfS x ∉ dks := by
          intro h
          rw [(phase2Emit_eq_none_iff _ _ _ _ _).mpr h] at hemit
          cases hemit
        rw [List.filter_cons, if_pos (by
            simp only [decide_eq_true_eq]
            rw [phase2Emit_settID cfg bp bo dks x o hemit, heq]),
          List.length_cons,
          count_filterMap_zero cfg bp bo dks s.id ss (by rw [heq]; exact hS.1),
          if_neg (heq ▸ hdk)]
    · cases hemit : phase2Emit cfg bp bo dks x with
      | none => exact ih hS.2 s hmem
      | some o =>
        rw [List.filter_cons, if_neg (by
            simp only [decide_eq_true_eq]
            rw [phase2Emit_settID cfg bp bo dks x o hemit]
            intro h
            exact hS.1 (h ▸ List.mem_map_of_mem _ hmem))]
        exact ih hS.2 s hmem

/-- Each settlement contributes exactly one phase-1 outcome referencing its
id when its key is duplicated, and none otherwise. -/
theorem count_phase1 (bp bo : List (String × Transaction))
    (ss : List SettlementRecord) (hS : (ss.map (·.id)).Nodup)
    (s : SettlementRecord) (hs : s ∈ ss) :
    ((phase1Results bp bo ss).filter (fun o => o.settlementID = s.id)).length
      = if pKeyOfS s ∈ duplicateKeys ss then 1 else 0 := by
  unfold phase1Results
  rw [filter_flatMap_count]
  have hper : ∀ k ∈ duplicateKeys ss,
      (((settlementGroup ss k).map
        (dupResult k (settlementGroup ss k).length (dupLookup bp bo ss k))).filter
          (fun o => o.settlementID = s.id)).length
        = if pKeyOfS s = k then 1 else 0 := by
    intro k hk
    rw [List.filter_map, List.length_map]
    have hcong : ((settlementGroup ss k).filter
        ((fun o => decide (o.settlementID = s.id))
          ∘ (dupResult k (settlementGroup ss k).length (dupLookup bp bo ss k))))
        = (settlementGroup ss k).filter (fun x => decide (x.id = s.id)) :=
      List.filter_congr (fun x _ => by
        simp only [Function.comp_apply, dupResult_settID])
    rw [hcong]
    show ((ss.filter (fun x => pKeyOfS x = k)).filter
      (fun x => x.id = s.id)).length = _
    have hcomm : (ss.filter fun a => decide (a.id = s.id) && decide (pKeyOfS a = k))
        = (ss.filter fun a => decide (pKeyOfS a = k) && decide (a.id = s.id)) :=
      List.filter_congr (fun a _ => Bool.and_comm _ _)
    rw [List.filter_filter, hcomm, ← List.filter_filter, filter_id_singleton hS hs]
    by_cases hks : pKeyOfS s = k
    · simp [hks]
    · simp [hks]
  rw [List.map_congr_left hper, sum_indicator (pKeyOfS s) _ (duplicateKeys_nodup ss)]

/-- Phase 3 never references a settlement. -/
theorem count_phase3 (M : List String) (ts : List Transaction) (sid : String)
    (hne : sid ≠ "") :
    ((phase3Results M ts).filter (fun o => o.settlementID = sid)).length = 0 := by
  rw [List.length_eq_zero, List.filter_eq_nil_iff]
  intro o ho
  obtain ⟨t, _, hsome⟩ := List.mem_filterMap.mp ho
  simp only [decide_eq_true_eq]
  split at hsome
  · cases hsome
  · cases Option.some_injective _ hsome
    exact fun h => hne h.symm

/-- Every settlement id of the snapshot is referenced by exactly one emitted
outcome. -/
theorem run_count_settlement (cfg : ReconciliationConfig) (rid : String)
    (ts : List Transaction) (ss : List SettlementRecord)
    (hS : (ss.map (·.id)).Nodup) (hSne : ∀ x ∈ ss, x.id ≠ "")
    (s : SettlementRecord) (hs : s ∈ ss) :
    ((runResultsList cfg rid ts ss).filter
      (fun o => o.settlementID = s.id)).length = 1 := by
  simp only [runResultsList]
  rw [assignIDs_filter_length rid
      (fun o => decide (o.settlementID = s.id)) (fun r x => rfl),
    List.filter_append, List.filter_append, List.length_append,
    List.length_append, count_phase1 _ _ ss hS s hs,
    phase2_results_eq cfg _ _ ss hS,
    count_filterMap_emit cfg _ _ (duplicateKeys ss) ss hS s hs,
    count_phase3 _ ts s.id (hSne s hs)]
  by_cases h : pKeyOfS s ∈ duplicateKeys ss
  · simp [h]
  · simp [h]

/-- Every transaction id consumed in phase 1 is referenced by a phase-1
outcome. -/
theorem phase1_txn_covered (bp bo : List (String × Transaction))
    (ss : List SettlementRecord) :
    ∀ i ∈ phase1TxnIDs bp bo ss,
      ∃ o ∈ phase1Results bp bo ss, o.transactionID = i := by
  intro i hi
  unfold phase1TxnIDs at hi
  obtain ⟨k, hk, hmap⟩ := List.mem_filterMap.mp hi
  cases hdl : dupLookup bp bo ss k with
  | none => rw [hdl] at hmap; cases hmap
  | some tx =>
    rw [hdl] at hmap
    have hid : tx.id = i := by
      have : some tx.id = some i := by simpa using hmap
      exact Option.some_injective _ this
    have hlen : 1 < (settlementGroup ss k).length := by
      have := (List.mem_filter.mp hk).2
      simpa using this
    obtain ⟨s0, hs0⟩ : ∃ s0, s0 ∈ settlementGroup ss k := by
      cases hgr : settlementGroup ss k with
      | nil => rw [hgr] at hlen; simp at hlen
      | cons a l => exact ⟨a, hgr ▸ List.mem_cons_self a l⟩
    refine ⟨dupResult k (settlementGroup ss k).length (dupLookup bp bo ss k) s0,
      ?_, ?_⟩
    · unfold phase1Results
      exact List.mem_flatMap.mpr ⟨k, hk, List.mem_map_of_mem _ hs0⟩
    · rw [hdl]
      exact hid

/-- One phase-2 step preserves the property that every consumed transaction
id is witnessed by `P` or by an accumulated outcome. -/
theorem phase2Step_txn_covered (cfg : ReconciliationConfig)
    (bp bo : List (String × Transaction)) (dks : List String)
    (st : Phase2State) (s : SettlementRecord) (P : String → Prop)
    (h : ∀ i ∈ st.matchedTxnIDs, P i ∨ ∃ o ∈ st.results, o.transactionID = i) :
    ∀ i ∈ (phase2Step cfg bp bo dks st s).matchedTxnIDs,
      P i ∨ ∃ o ∈ (phase2Step cfg bp bo dks st s).results,
        o.transactionID = i := by
  unfold phase2Step
  split
  · exact h
  · split
    · exact h
    · split
      · intro i hi
        rcases h i hi with hP | ⟨o, ho, hoid⟩
        · exact Or.inl hP
        · exact Or.inr ⟨o, List.mem_append_left _ ho, hoid⟩
      · next t _ =>
        intro i hi
        rcases List.mem_cons.mp hi with heq | hmem
        · refine Or.inr ⟨matchedResult cfg t s,
            List.mem_append_right _ (List.mem_singleton.mpr rfl), ?_⟩
          rw [heq]
          rfl
        · rcases h i hmem with hP | ⟨o, ho, hoid⟩
          · exact Or.inl hP
          · exact Or.inr ⟨o, List.mem_append_left _ ho, hoid⟩

/-- The phase-2 fold preserves the coverage property. -/
theorem phase2_foldl_txn_covered (cfg : ReconciliationConfig)
    (bp bo : List (String × Transaction)) (dks : List String)
    (P : String → Prop) :
    ∀ (l : List SettlementRecord) (st : Phase2State),
      (∀ i ∈ st.matchedTxnIDs, P i ∨ ∃ o ∈ st.results, o.transactionID = i) →
      ∀ i ∈ (l.foldl (phase2Step cfg bp bo dks) st).matchedTxnIDs,
        P i ∨ ∃ o ∈ (l.foldl (phase2Step cfg bp bo dks) st).results,
          o.transactionID = i := by
  intro l
  induction l with
  | nil => intro st h; exact h
  | cons s l ih =>
    intro st h
    rw [List.foldl_cons]
    exact ih _ (phase2Step_txn_covered cfg bp bo dks st s P h)

/-- Every transaction id consumed by phases 1-2 is referenced by an outcome
of phases 1-2. -/
theorem run_txn_covered (cfg : ReconciliationConfig)
    (bp bo : List (String × Transaction)) (ss : List SettlementRecord) :
    ∀ i ∈ (phase2 cfg bp bo ss).matchedTxnIDs,
      ∃ o ∈ phase1Results bp bo ss ++ (phase2 cfg bp bo ss).results,
        o.transactionID = i := by
  intro i hi
  have hcov := phase2_foldl_txn_covered cfg bp bo (duplicateKeys ss)
    (fun i => ∃ o ∈ phase1Results bp bo ss, o.transactionID = i) ss
    { results := []
      matchedTxnIDs := phase1TxnIDs bp bo ss
      matchedSettIDs := phase1SettIDs ss }
    (fun i hi => Or.inl (phase1_txn_covered bp bo ss i hi)) i hi
  rcases hcov with ⟨o, ho, hid⟩ | ⟨o, ho, hid⟩
  · exact ⟨o, List.mem_append_left _ ho, hid⟩
  · exact ⟨o, List.mem_append_right _ ho, hid⟩

/-- Every transaction id of the snapshot is referenced by at least one
emitted outcome. -/
theorem run_txn_exists (cfg : ReconciliationConfig) (rid : String)
    (ts : List Transaction) (ss : List SettlementRecord)
    (t : Transaction) (ht : t ∈ ts) :
    ∃ o ∈ runResultsList cfg rid ts ss, o.transactionID = t.id := by
  simp only [runResultsList]
  by_cases hm : t.id ∈ (phase2 cfg (buildIndex pKeyOfT ts)
      (buildIndex (·.orderID) ts) ss).matchedTxnIDs
  · obtain ⟨o, ho, hid⟩ := run_txn_covered cfg (buildIndex pKeyOfT ts)
      (buildIndex (·.orderID) ts) ss t.id hm
    obtain ⟨m, hmem⟩ := mem_assignIDs_of_mem rid 0 _ o
      (List.mem_append_left _ ho)
    exact ⟨_, hmem, hid⟩
  · have hp3 : unsettledResult t ∈ phase3Results
        (phase2 cfg (buildIndex pKeyOfT ts) (buildIndex (·.orderID) ts)
          ss).matchedTxnIDs ts :=
      List.mem_filterMap.mpr ⟨t, ht, by rw [if_neg hm]⟩
    obtain ⟨m, hmem⟩ := mem_assignIDs_of_mem rid 0 _ _
      (List.mem_append_right _ hp3)
    exact ⟨_, hmem, rfl⟩

/-- The length of a `filterMap` counts the elements with a `some`
emission. -/
theorem length_filterMap_eq {α β : Type} (g : α → Option β) :
    ∀ l : List α, (l.filterMap g).length
      = (l.filter (fun a => (g a).isSome)).length := by
  intro l
  induction l with
  | nil => rfl
  | cons a l ih =>
    rw [List.filterMap_cons, List.filter_cons]
    cases hg : g a <;> simp [hg, ih]

/-- Phase 2 emits exactly for non-duplicate keys. -/
theorem phase2Emit_isSome (cfg : ReconciliationConfig)
    (bp bo : List (String × Transaction)) (dks : List String)
    (s : SettlementRecord) :
    (phase2Emit cfg bp bo dks s).isSome = !(decide (pKeyOfS s ∈ dks)) := by
  unfold phase2Emit
  split
  · next h => simp [h]
  · next h => split <;> simp [h]

/-- Summing group sizes over a duplicate-free key list counts the members
with a key in the list. -/
theorem sum_group_lengths (K : List String) (hK : K.Nodup) :
    ∀ l : List SettlementRecord,
      (K.map (fun k => (l.filter (fun s => pKeyOfS s = k)).length)).sum
        = (l.filter (fun s => pKeyOfS s ∈ K)).length := by
  intro l
  induction l with
  | nil =>
    simp only [List.filter_nil, List.length_nil]
    induction K with
    | nil => rfl
    | cons k K ihK => simp [ihK]
  | cons s l ih =>
    have hsplit : ∀ k, ((s :: l).filter (fun x => pKeyOfS x = k)).length
        = (if pKeyOfS s = k then 1 else 0)
          + (l.filter (fun x => pKeyOfS x = k)).length := by
      intro k
      rw [List.filter_cons]
      by_cases h : pKeyOfS s = k
      · simp [h]
        omega
      · simp [h]
    rw [List.map_congr_left (fun k _ => hsplit k), sum_map_add, ih,
      sum_indicator (pKeyOfS s) K hK, List.filter_cons]
    by_cases h : pKeyOfS s ∈ K
    · simp [h]
      omega
    · simp [h]

/-- Phases 1 and 2 together emit exactly one outcome per settlement. -/
theorem phase12_length (cfg : ReconciliationConfig)
    (bp bo : List (String × Transaction)) (ss : List SettlementRecord)
    (hS : (ss.map (·.id)).Nodup) :
    (phase1Results bp bo ss).length + ((phase2 cfg bp bo ss).results).length
      = ss.length := by
  rw [phase2_results_eq cfg bp bo ss hS, length_filterMap_eq,
    List.filter_congr (fun s _ => phase2Emit_isSome cfg bp bo _ s)]
  unfold phase1Results
  rw [length_flatMap_sum,
    List.map_congr_left (fun k _ => List.length_map _ _)]
  show ((duplicateKeys ss).map
    (fun k => ((settlementGroup ss k).length))).sum + _ = _
  unfold settlementGroup
  rw [sum_group_lengths (duplicateKeys ss) (duplicateKeys_nodup ss) ss]
  exact filter_length_split (fun s => decide (pKeyOfS s ∈ duplicateKeys ss)) ss

/-- One phase-2 step grows the consumed transaction ids by at most the
number of emitted outcomes. -/
theorem phase2Step_len (cfg : ReconciliationConfig)
    (bp bo : List (String × Transaction)) (dks : List String)
    (st : Phase2State) (s : SettlementRecord) :
    (phase2Step cfg bp bo dks st s).matchedTxnIDs.length + st.results.length
      ≤ st.matchedTxnIDs.length
        + (phase2Step cfg bp bo dks st s).results.length := by
  unfold phase2Step
  split
  · omega
  · split
    · omega
    · split <;> simp <;> omega

/-- The phase-2 fold grows the consumed transaction ids by at most the
number of emitted outcomes. -/
theorem phase2_foldl_len (cfg : ReconciliationConfig)
    (bp bo : List (String × Transaction)) (dks : List String) :
    ∀ (l : List SettlementRecord) (st : Phase2State),
      (l.foldl (phase2Step cfg bp bo dks) st).matchedTxnIDs.length
          + st.results.length
        ≤ st.matchedTxnIDs.length
          + (l.foldl (phase2Step cfg bp bo dks) st).results.length := by
  intro l
  induction l with
  | nil =>
    intro st
    rw [List.foldl_nil]
  | cons s l ih =>
    intro st
    rw [List.foldl_cons]
    have h1 := ih (phase2Step cfg bp bo dks st s)
    have h2 := phase2Step_len cfg bp bo dks st s
    omega

/-- The consumed transaction ids are bounded by the number of phase-1 and
phase-2 outcomes. -/
theorem phase2_mTxn_len (cfg : ReconciliationConfig)
    (bp bo : List (String × Transaction)) (ss : List SettlementRecord) :
    (phase2 cfg bp bo ss).matchedTxnIDs.length
      ≤ (phase1Results bp bo ss).length
        + ((phase2 cfg bp bo ss).results).length := by
  have hfold := phase2_foldl_len cfg bp bo (duplicateKeys ss) ss
    { results := []
      matchedTxnIDs := phase1TxnIDs bp bo ss
      matchedSettIDs := phase1SettIDs ss }
  have h1 : (phase1TxnIDs bp bo ss).length ≤ (duplicateKeys ss).length :=
    List.length_filterMap_le _ _
  have h2 : (duplicateKeys ss).length ≤ (phase1Results bp bo ss).length := by
    unfold phase1Results
    rw [length_flatMap_sum,
      List.map_congr_left (fun k _ => List.length_map _ _)]
    apply length_le_sum
    intro k hk
    have := (List.mem_filter.mp hk).2
    have hlen : 1 < (settlementGroup ss k).length := by simpa using this
    omega
  simp only [phase2] at *
  omega

/-- The run emits at least as many outcomes as there are transactions and as
there are settlements. -/
theorem runResultsList_length (cfg : ReconciliationConfig) (rid : String)
    (ts : List Transaction) (ss : List SettlementRecord)
    (hT : (ts.map (·.id)).Nodup) (hS : (ss.map (·.id)).Nodup) :
    max ts.length ss.length ≤ (runResultsList cfg rid ts ss).length := by
  simp only [runResultsList]
  rw [assignIDs_length, List.length_append, List.length_append]
  set bp := buildIndex pKeyOfT ts with hbp
  set bo := buildIndex (fun x => x.orderID) ts with hbo
  set M := (phase2 cfg bp bo ss).matchedTxnIDs with hMdef
  have h12 := phase12_length cfg bp bo ss hS
  have hM := phase2_mTxn_len cfg bp bo ss
  rw [← hMdef] at hM
  have hfc : ts.filter (fun t =>
        ((if t.id ∈ M then none else some (unsettledResult t))
          : Option ReconciliationResult).isSome)
      = ts.filter (fun t => !(decide (t.id ∈ M))) :=
    List.filter_congr (fun t _ => by by_cases h : t.id ∈ M <;> simp [h])
  have h3 : (phase3Results M ts).length
      = (ts.filter (fun t => !(decide (t.id ∈ M)))).length := by
    unfold phase3Results
    rw [length_filterMap_eq, hfc]
  have hsplitT := filter_length_split (fun t => decide (t.id ∈ M)) ts
  have hrem : (ts.filter (fun t => decide (t.id ∈ M))).length ≤ M.length := by
    rw [← List.length_map _ (·.id)]
    apply nodup_subset_length_le
    · exact ((List.filter_sublist ts).map (·.id)).nodup hT
    · intro a ha
      obtain ⟨t, htf, rfl⟩ := List.mem_map.mp ha
      have := (List.mem_filter.mp htf).2
      simpa using this
  apply Nat.max_le.mpr
  constructor
  · omega
  · omega

/-- Counterexample to C4. In the run on `fxConfig` (USD→MXN rate 17) with
the duplicate pair `dupCrossSettA/B` (gross 100 MXN) against `doubleTxn`
(authorized 100 USD), both emitted outcomes reference the transaction and a
settlement, yet their variance is `100 - 100 = 0`, not the FX-adjusted
`100 - 1700`: the claim's equation fails on duplicate outcomes. -/
theorem c4_counterexample :
    ¬ ∀ o ∈ (Run fxConfig "R" [doubleTxn] [dupCrossSettA, dupCrossSettB]).results,
      o.transactionID ≠ "" → o.settlementID ≠ "" →
      o.varianceAmount
        = o.settledGrossAmount - convertAmount fxConfig 100 "USD" o.currency := by
  with_unfolding_all decide

/-- Claim C1, amended. For every run on snapshots with duplicate-free,
nonempty identifiers: every settlement id is referenced by exactly one
emitted outcome (each member of a duplicate group by its own `duplicate`
outcome, none dropped); every transaction id is referenced by *at least* one
outcome (a transaction can be referenced by several — see the
counterexample); and the outcome list is at least
`max(len(transactions), len(settlements))` long. -/
theorem c1_exhaustiveness_amended (cfg : ReconciliationConfig) (rid : String)
    (ts : List Transaction) (ss : List SettlementRecord)
    (hT : (ts.map (·.id)).Nodup) (hS : (ss.map (·.id)).Nodup)
    (hSne : ∀ s ∈ ss, s.id ≠ "") :
    (∀ s ∈ ss, ((Run cfg rid ts ss).results.filter
        (fun o => o.settlementID = s.id)).length = 1) ∧
    (∀ t ∈ ts, ∃ o ∈ (Run cfg rid ts ss).results, o.transactionID = t.id) ∧
    max ts.length ss.length ≤ (Run cfg rid ts ss).results.length := by
  rw [run_results]
  exact ⟨fun s hs => run_count_settlement cfg rid ts ss hS hSne s hs,
    fun t ht => run_txn_exists cfg rid ts ss t ht,
    runResultsList_length cfg rid ts ss hT hS⟩

/-- Counterexample to C1. One transaction (`T1`, key `P:1`, order `O1`) and
two settlements: `S1` matches by processor key, `S2` (key `P:2`) matches by
the order-reference fallback.  `T1` is referenced by two outcomes, so
"every transaction maps to exactly one outcome" fails. -/
theorem c1_counterexample :
    ¬ ∀ t ∈ [doubleTxn],
      (((Run DefaultConfig "R" [doubleTxn] [doubleSettA, doubleSettB]).results.filter
        (fun o => o.transactionID = t.id)).length = 1) := by
  with_unfolding_all decide

/-- Witness for C1. The amended claim applied to the two-settlement run. -/
theorem c1_exhaustiveness_amended_witness :
    ((Run DefaultConfig "R" [doubleTxn] [doubleSettA, doubleSettB]).results.filter
      (fun o => o.settlementID = doubleSettA.id)).length = 1 ∧
    (∃ o ∈ (Run DefaultConfig "R" [doubleTxn] [doubleSettA, doubleSettB]).results,
      o.transactionID = doubleTxn.id) ∧
    max [doubleTxn].length [doubleSettA, doubleSettB].length
      ≤ (Run DefaultConfig "R" [doubleTxn] [doubleSettA, doubleSettB]).results.length :=
  ⟨(c1_exhaustiveness_amended DefaultConfig "R" [doubleTxn]
      [doubleSettA, doubleSettB] (by decide) (by decide) (by decide)).1
      doubleSettA (List.mem_cons_self _ _),
    (c1_exhaustiveness_amended DefaultConfig "R" [doubleTxn]
      [doubleSettA, doubleSettB] (by decide) (by decide) (by decide)).2.1
      doubleTxn (List.mem_cons_self _ _),
    (c1_exhaustiveness_amended DefaultConfig "R" [doubleTxn]
      [doubleSettA, doubleSettB] (by decide) (by decide) (by decide)).2.2⟩

/-- Witness for C2. The amended fee override applied at authorized `100`,
gross `97`, fee `3`, same currency, zero tolerance. -/
theorem c2_fee_override_amended_witness :
    (matchedResult DefaultConfig feeBoundaryTxn feeBeyondTolSett).status = .matched ∧
    ∃ suf, (matchedResult DefaultConfig feeBoundaryTxn feeBeyondTolSett).notes
      = feeNote (varianceOf DefaultConfig feeBoundaryTxn feeBeyondTolSett)
          feeBeyondTolSett.currency feeBeyondTolSett.feeAmount ++ suf :=
  (c2_fee_override_amended DefaultConfig feeBoundaryTxn feeBeyondTolSett
    (by rw [← qabs_eq_abs]; with_unfolding_all decide)
    (by rw [← qabs_eq_abs]; with_unfolding_all decide)).1
    rfl (by with_unfolding_all decide)
    (by rw [← qabs_eq_abs]; with_unfolding_all decide)

/-- Witness for C3. The tolerance branch applied at a 1.5% variance inside a
2% tolerance. -/
theorem c3_tolerance_amended_witness :
    (matchedResult tolConfig feeBoundaryTxn tolSett).status = .matched ∧
    ∃ suf, (matchedResult tolConfig feeBoundaryTxn tolSett).notes
      = tolNote (varianceOf tolConfig feeBoundaryTxn tolSett) tolSett.currency
          tolConfig.varianceTolerancePct ++ suf :=
  (c3_tolerance_amended tolConfig feeBoundaryTxn tolSett).2.1
    (by rw [← qabs_eq_abs]; with_unfolding_all decide)
    (by rw [← qabs_eq_abs]; with_unfolding_all decide)

/-- Witness for C10. The theorem applied at the default threshold `1000` to
a run with one unmatched transaction. -/
theorem c10_no_unsettled_witness :
    0 < DefaultConfig.highPriorityThreshold ∧
    ∀ o ∈ (Run DefaultConfig "R" [doubleTxn] []).highPriority,
      o.status ≠ .unsettled :=
  ⟨by with_unfolding_all decide,
    c10_no_unsettled DefaultConfig "R" [doubleTxn] []
      (by with_unfolding_all decide)⟩

end Reconciler
